import Mathlib

/- Shallow embedding of the stock_status server core: the monthly cache and
merge logic of src/server.js and the event/news pipeline of the server
variant in src/unnamed/part_003 (with the instrument configuration of
src/unnamed/part_001).  JavaScript numbers are modelled as rationals,
JavaScript null/undefined as Option, and JS objects / Maps as association
lists that preserve insertion order.  Network and disk effects are
abstracted as explicit oracle parameters; everything else is translated
directly from the source. -/

/-- Daily price record `{ date, close, open, high, low, volume }` as built by
`fetchChartFromYahoo` (src/server.js:183-190).  `close` is kept nullable,
matching the `close == null` guards in the event code; `open` is spelled
`openPrice` (Lean keyword).  The optional fields carry no logic and default
to `none`. -/
structure DailyRecord where
  date : String
  close : Option ℚ
  openPrice : Option ℚ := none
  high : Option ℚ := none
  low : Option ℚ := none
  volume : Option ℚ := none
  deriving Repr, DecidableEq

/-- Date projection of a record list, used to state per-instrument
uniqueness-by-date (the DailyRecord invariant of the data model). -/
def dates (l : List DailyRecord) : List String := l.map (fun r => r.date)

/-- Comparator of every `sort((a, b) => a.date.localeCompare(b.date))` in the
source (src/server.js:339,343,370 and src/unnamed/part_003:645): records are
ordered by their ISO date strings, and `localeCompare` on fixed-width ASCII
dates is the codepoint order. -/
def byDateLe (a b : DailyRecord) : Prop := a.date ≤ b.date

instance : DecidableRel byDateLe := fun a b =>
  decidable_of_iff (a.date.toList ≤ b.date.toList) String.le_iff_toList_le.symm

instance : IsTotal DailyRecord byDateLe := ⟨fun a b => le_total a.date b.date⟩

instance : IsTrans DailyRecord byDateLe := ⟨fun _ _ _ h1 h2 => le_trans h1 h2⟩

/-- JS `Array#sort` is stable; with the date comparator it is extensionally
the (stable) insertion sort by `byDateLe`. -/
def sortByDate (l : List DailyRecord) : List DailyRecord := l.insertionSort byDateLe

/-- One step of the `byDate` JS `Map` in `mergeMonthlyData`
(src/server.js:336-338): `byDate.set(d.date, d)` overwrites an existing key
in place and appends a fresh key at the end, per `Map` insertion-order
semantics. -/
def setByDate (m : List DailyRecord) (d : DailyRecord) : List DailyRecord :=
  if m.any (fun e => e.date == d.date) then
    m.map (fun e => if e.date = d.date then d else e)
  else m ++ [d]

/-- The `byDate` map accumulated over a record list, last write wins. -/
def byDateMap (l : List DailyRecord) : List DailyRecord := l.foldl setByDate []

/-- Per-instrument body of the first loop of `mergeMonthlyData`
(src/server.js:335-339): existing then fresh records flow through the
`byDate` map and the surviving values are sorted by date. -/
def mergeSeries (existing fresh : List DailyRecord) : List DailyRecord :=
  sortByDate (byDateMap (existing ++ fresh))

/-- Monthly data object: a JS object mapping instrument id to its records,
modelled as an insertion-ordered association list (JS object keys are
unique; lookups use first match). -/
abbrev MonthlyData := List (String × List DailyRecord)

/-- JS property read `data[id]`. -/
def lookupId (m : MonthlyData) (id : String) : Option (List DailyRecord) :=
  (m.find? (fun p => p.1 == id)).map (fun p => p.2)

/-- Key-presence test behind `if (merged[id]) continue`
(src/server.js:342; every stored value is an array, hence truthy). -/
def hasId (m : MonthlyData) (id : String) : Bool := m.any (fun p => p.1 == id)

/-- `mergeMonthlyData(existing, fresh)` (src/server.js:333-346): for every
key of `existing`, merge its series with the fresh series (or `[]`); then
append, for every key only in `fresh`, its series sorted (note: without
date-deduplication, exactly as in the source). -/
def mergeMonthlyData (existing fresh : MonthlyData) : MonthlyData :=
  (existing.map fun p => (p.1, mergeSeries p.2 ((lookupId fresh p.1).getD [])))
    ++ ((fresh.filter fun p => ! hasId existing p.1).map fun p => (p.1, sortByDate p.2))

/-- Instrument configuration entry of src/unnamed/part_001
(config/symbols.js): `newsSymbol` is `null` or a Finnhub symbol. -/
structure Item where
  id : String
  name : String
  symbol : String
  unit : String := ""
  newsSymbol : Option String
  deriving Repr, DecidableEq

/-- Candidate event pushed by the detection loop (src/unnamed/part_003
lines 709-716); the display-only `description` string is omitted. -/
structure CandidateEvent where
  date : String
  item : String
  itemObj : Item
  change : ℚ
  type : String
  deriving Repr, DecidableEq

/-- Adjacent-pair test of the candidate loop (src/unnamed/part_003
lines 703-718): skip null closes and a zero previous close, compute
`changePct = (curr - prev) / prev * 100`, and emit a candidate when
`|changePct| >= 3`, typed `"상승"` (rise) when positive and `"하락"` (fall)
otherwise. -/
def candidatePair (it : Item) (prevR currR : DailyRecord) : Option CandidateEvent :=
  match prevR.close, currR.close with
  | some prev, some curr =>
    if prev = 0 then none
    else
      let changePct := (curr - prev) / prev * 100
      if 3 ≤ |changePct| then
        some { date := currR.date, item := it.name, itemObj := it, change := changePct,
               type := if 0 < changePct then "상승" else "하락" }
      else none
  | _, _ => none

/-- The candidate loop `for (let i = 1; i < data.length; i++)` over one
instrument's records (src/unnamed/part_003:703-719). -/
def candidateEvents (it : Item) : List DailyRecord → List CandidateEvent
  | prevR :: currR :: rest =>
      (candidatePair it prevR currR).toList ++ candidateEvents it (currR :: rest)
  | _ => []

/-- Candidates over all configured instruments, reading `raw[item.id] || []`
(src/unnamed/part_003:701-702). -/
def candidateEventsAll (items : List Item) (raw : MonthlyData) : List CandidateEvent :=
  items.flatMap fun it => candidateEvents it ((lookupId raw it.id).getD [])

/-- `Math.max(...)` over a nonempty rational list; the `[]` value 0 is
unreachable in `getSellTimingWarning` (the slice always contains
`closes[idx]`). -/
def listMax : List ℚ → ℚ
  | [] => 0
  | h :: t => t.foldl max h

/-- Backwards consecutive-decline loop of `getSellTimingWarning`
(src/unnamed/part_003:657-660): `consecDownFrom closes i` counts how many
adjacent strict declines end at index `i`. -/
def consecDownFrom (closes : List ℚ) : ℕ → ℕ
  | 0 => 0
  | i + 1 =>
      if closes.getD (i + 1) 0 < closes.getD i 0 then consecDownFrom closes i + 1 else 0

/-- `getSellTimingWarning(data, evtDate, changePct, type)`
(src/unnamed/part_003:643-685).  `monthLow` is computed but never read in
the source and is omitted; the `ℚ` division-by-zero convention (result 0)
is only reachable with zero prices. -/
def getSellTimingWarning (data : List DailyRecord) (evtDate : String)
    (changePct : ℚ) (type : String) : String :=
  if data.length < 2 then "-" else
  let sorted := sortByDate data
  let closes := (sorted.map (fun d => d.close)).reduceOption
  if closes.length < 2 then "-" else
  match sorted.findIdx? (fun d => d.date == evtDate) with
  | none => "-"
  | some idx =>
    if closes.length ≤ idx then "-" else
    let curr := closes.getD idx 0
    let monthFirst := closes.getD 0 0
    let monthHigh := listMax (closes.take (idx + 1))
    let consecDown := consecDownFrom closes idx
    let cumulChange := (curr - monthFirst) / monthFirst * 100
    let fromHigh := (curr - monthHigh) / monthHigh * 100
    if type == "하락" then
      if changePct ≤ -7 ∧ 2 ≤ consecDown then "⚠ 급락 구간 - 즉시 매도 검토 권고"
      else if changePct ≤ -5 ∧ 2 ≤ consecDown then "⚠ 하락 추세 지속 - 매도 시점 검토 권고"
      else if cumulChange ≤ -5 ∧ fromHigh ≤ -5 then "⚠ 월간 손실 확대 - 손절 포인트 검토"
      else if 3 ≤ consecDown then "△ 연속 하락 - 관망 또는 분할 매도 고려"
      else if changePct ≤ -5 then "△ 단기 급락 - 추가 하락 시 매도 검토"
      else if cumulChange ≤ -3 then "△ 월 누적 하락 - 보유 비중 점검"
      else "○ 변동성 확대 - 시장 모니터링"
    else if type == "상승" then
      if 7 ≤ changePct then "○ 급등 - 일부 익절 검토"
      else if -1 ≤ fromHigh ∧ 5 ≤ changePct then "○ 고점 근접 - 수익 실현 고려"
      else "○ 상승 지속 - 보유 유지"
    else "-"

/-- Days from civil date (proleptic Gregorian): the whole-day count that
`new Date("YYYY-MM-DD").getTime() / 86400000` yields for a canonical ISO
date. -/
def daysFromCivil (y m d : ℤ) : ℤ :=
  let y2 := if m ≤ 2 then y - 1 else y
  let era := (if 0 ≤ y2 then y2 else y2 - 399) / 400
  let yoe := y2 - era * 400
  let mp := if m ≤ 2 then m + 9 else m - 3
  let doy := (153 * mp + 2) / 5 + d - 1
  let doe := yoe * 365 + yoe / 4 - yoe / 100 + doy
  era * 146097 + doe - 719468

/-- Gregorian leap-year rule. -/
def isLeapYear (y : ℤ) : Bool :=
  decide (y % 4 = 0 ∧ (¬ y % 100 = 0 ∨ y % 400 = 0))

/-- Length of a month, as used by `new Date(year, month, 0)`
(src/server.js:84). -/
def daysInMonth (y m : ℤ) : ℤ :=
  if m = 2 then (if isLeapYear y then 29 else 28)
  else if m = 4 ∨ m = 6 ∨ m = 9 ∨ m = 11 then 30 else 31

/-- Numeric value of a digit string, as characters. -/
def digitsVal (cs : List Char) : ℤ :=
  cs.foldl (fun n c => 10 * n + ((c.toNat : ℤ) - 48)) 0

/-- Parse of a strict `YYYY-MM-DD` string; anything the JS engine would turn
into an `Invalid Date` — and any non-canonical form, which the server never
produces — is rejected.  Mirrors `DATE_REGEX` plus `new Date` validity
(src/server.js:47,73-79), stated on the character list so that it evaluates
by kernel reduction. -/
def parseISODate (s : String) : Option (ℤ × ℤ × ℤ) :=
  match s.toList with
  | [y1, y2, y3, y4, h1, m1, m2, h2, d1, d2] =>
    if h1 = '-' ∧ h2 = '-' ∧ [y1, y2, y3, y4, m1, m2, d1, d2].all Char.isDigit then
      let y := digitsVal [y1, y2, y3, y4]
      let m := digitsVal [m1, m2]
      let d := digitsVal [d1, d2]
      if 1 ≤ m ∧ m ≤ 12 ∧ 1 ≤ d ∧ d ≤ daysInMonth y m then some (y, m, d) else none
    else none
  | _ => none

/-- `new Date(s).getTime()` expressed in whole days since the Unix epoch. -/
def dateToDays (s : String) : Option ℤ :=
  (parseISODate s).map fun t => daysFromCivil t.1 t.2.1 t.2.2

/-- `Math.abs(new Date(d1) - new Date(d2))` in days
(src/unnamed/part_003:626); `none` models the `NaN` of an invalid date,
which fails every subsequent comparison. -/
def absDiffDays (d1 d2 : String) : Option ℤ :=
  match dateToDays d1, dateToDays d2 with
  | some a, some b => some |a - b|
  | _, _ => none

/-- News item `{ date, headline }` (src/unnamed/part_003:505-522). -/
structure NewsItem where
  date : String
  headline : String
  deriving Repr, DecidableEq

/-- `buildMarketNewsByDate` (src/unnamed/part_003:608-616): group headlines
by date into an insertion-ordered map. -/
def buildMarketNewsByDate (l : List NewsItem) : List (String × List String) :=
  l.foldl (fun m n =>
    if m.any (fun p => p.1 == n.date) then
      m.map (fun p => if p.1 = n.date then (p.1, p.2 ++ [n.headline]) else p)
    else m ++ [(n.date, [n.headline])]) []

/-- JS `Map#get` on the insertion-ordered news map. -/
def lookupDate (m : List (String × List String)) (d : String) : Option (List String) :=
  (m.find? (fun p => p.1 == d)).map (fun p => p.2)

/-- One step of the closest-headline scan in `getMarketHeadlineForDate`
(src/unnamed/part_003:624-631).  The accumulator is `(best, bestDiff)`,
`none` standing for `null` and `Infinity` respectively. -/
def headlineScanStep (eventDate : String) (acc : Option String × Option ℤ)
    (entry : String × List String) : Option String × Option ℤ :=
  match entry.2 with
  | [] => acc
  | h :: _ =>
    match absDiffDays entry.1 eventDate with
    | none => acc
    | some diff =>
      match acc.2 with
      | none => if diff ≤ 14 then (some h, some diff) else acc
      | some bestDiff => if diff ≤ 14 ∧ diff < bestDiff then (some h, some diff) else acc

/-- `getMarketHeadlineForDate(marketByDate, eventDate)`
(src/unnamed/part_003:618-633): first headline of the exact date if any,
otherwise the first headline of the nearest date within 14 days. -/
def getMarketHeadlineForDate (marketByDate : List (String × List String))
    (eventDate : String) : Option String :=
  match lookupDate marketByDate eventDate with
  | some (h :: _) => some h
  | _ => (marketByDate.foldl (headlineScanStep eventDate) (none, none)).1

/-- Retained event object (src/unnamed/part_003:731-739); the display-only
`description` is omitted. -/
structure EventOut where
  date : String
  item : String
  change : ℚ
  type : String
  newsHeadline : Option String
  sellWarning : String
  deriving Repr, DecidableEq

/-- Build of one retained event (src/unnamed/part_003:728-739). -/
def mkEvent (raw : MonthlyData) (marketByDate : List (String × List String))
    (ev : CandidateEvent) : EventOut :=
  { date := ev.date, item := ev.item, change := ev.change, type := ev.type,
    newsHeadline := getMarketHeadlineForDate marketByDate ev.date,
    sellWarning :=
      getSellTimingWarning ((lookupId raw ev.itemObj.id).getD []) ev.date ev.change ev.type }

/-- The news-symbol gate `if (!newsSym) continue`
(src/unnamed/part_003:726-727): a JS falsiness check, skipping `null`
(and the empty string, which the configuration never uses). -/
def newsSymPresent (it : Item) : Bool :=
  match it.newsSymbol with
  | none => false
  | some s => ! (s == "")

/-- The retained-events loop of the events route
(src/unnamed/part_003:724-740). -/
def buildEvents (items : List Item) (raw : MonthlyData)
    (marketByDate : List (String × List String)) : List EventOut :=
  (candidateEventsAll items raw).filterMap fun ev =>
    if newsSymPresent ev.itemObj then some (mkEvent raw marketByDate ev) else none

/-- Date grouping of the response (src/unnamed/part_003:742-746),
first-occurrence key order. -/
def groupEventsByDate (events : List EventOut) : List (String × List EventOut) :=
  events.foldl (fun m e =>
    if m.any (fun p => p.1 == e.date) then
      m.map (fun p => if p.1 = e.date then (p.1, p.2 ++ [e]) else p)
    else m ++ [(e.date, [e])]) []

/-- Deduplication by `(date, headline)` at the end of `fetchMarketNews`
(src/unnamed/part_003:596-602); the seen-set key is exactly the record, so
first occurrences are kept. -/
def dedupNews (l : List NewsItem) : List NewsItem :=
  l.foldl (fun acc n => if n ∈ acc then acc else acc ++ [n]) []

/-- `fetchMarketNews(fromDate, toDate)` (src/unnamed/part_003:525-606) with
its effects made explicit: `cached` is the fresh news-cache entry honoured
by the function (if any), `upstream` the concatenated already-parsed and
window-filtered provider items (`allNews`).  Without an API key the
function returns `[]` before any network or cache write. -/
def fetchMarketNews (cached : Option (List NewsItem)) (apiKey : Option String)
    (upstream : List NewsItem) : List NewsItem :=
  match cached with
  | some data => data
  | none =>
    match apiKey with
    | none => []
    | some _ => dedupNews upstream

/-- `fetchNewsForSymbol(symbol, fromDate, toDate)`
(src/unnamed/part_003:458-496), same effect abstraction; `upstream` is the
parsed, date-filtered result list. -/
def fetchNewsForSymbol (cached : Option (List NewsItem)) (apiKey : Option String)
    (upstream : List NewsItem) : List NewsItem :=
  match cached with
  | some data => data
  | none =>
    match apiKey with
    | none => []
    | some _ => upstream

/-- Per-instrument fetch failure `{ name, reason }` (src/server.js:255). -/
structure Failure where
  name : String
  reason : String
  deriving Repr, DecidableEq

/-- `fetchAllHistorical(items, start, end)` (src/server.js:247-260).  The
per-instrument adapter call `fetchChartFromYahoo` is abstracted as
`oracle`: `.ok series` a successful result, `.error msg` an
exhausted-retries throw (src/server.js:201).  Instrument ids are unique in
the configuration, so appending `(id, …)` models `results[item.id] = …`. -/
def fetchAllHistorical (items : List Item)
    (oracle : Item → Except String (List DailyRecord)) :
    MonthlyData × List Failure :=
  match items with
  | [] => ([], [])
  | it :: rest =>
    let r := fetchAllHistorical rest oracle
    match oracle it with
    | Except.ok series => ((it.id, series) :: r.1, r.2)
    | Except.error msg => ((it.id, []) :: r.1, ⟨it.name, msg⟩ :: r.2)

/-- Message of the `throw` after the retry loop of `fetchChartFromYahoo`
(src/server.js:201). -/
def fetchExhaustedMsg : String := "데이터 조회 실패"

/-- A calendar date, standing for the calendar part of a JS `Date`. -/
structure Date3 where
  year : ℤ
  month : ℤ
  day : ℤ
  deriving Repr, DecidableEq

/-- `String(n).padStart(2, '0')`. -/
def pad2 (n : ℤ) : String :=
  let s := toString n
  if s.length < 2 then "0" ++ s else s

/-- `formatYMD` (src/server.js:88-93) on an explicit calendar date. -/
def formatYMD (d : Date3) : String :=
  toString d.year ++ "-" ++ pad2 d.month ++ "-" ++ pad2 d.day

/-- `getPeriodKey(year, month)` (src/server.js:294-296). -/
def getPeriodKey (year month : ℤ) : String :=
  toString year ++ "-" ++ pad2 month

/-- `sanitizeDate` (src/server.js:73-79) as a Boolean test: the
`YYYY-MM-DD` regex plus `new Date` validity. -/
def sanitizeDate (s : String) : Bool := (parseISODate s).isSome

/-- JS string comparison `a <= b` (codepoint lexicographic), stated on the
character lists so that it evaluates by kernel reduction;
`String.le_iff_toList_le` equates it with the `String` order. -/
def strLeB (a b : String) : Bool := decide (a.toList ≤ b.toList)

/-- Per-instrument window clamp of `getMonthlyData` (src/server.js:367-371):
keep sane dates inside `[monthStart, monthEnd]` and sort by date. -/
def filterToWindow (monthStart monthEnd : String) (series : List DailyRecord) :
    List DailyRecord :=
  sortByDate (series.filter fun d =>
    sanitizeDate d.date && strLeB monthStart d.date && strLeB d.date monthEnd)


/-- Stored snapshot entry of `dailyFileCache` (src/server.js:377); `data` is
optional to model the `!entry.data` guard of `getCachedMonthly`. -/
structure CacheEntry where
  year : ℤ
  month : ℤ
  data : Option MonthlyData
  deriving DecidableEq

/-- The `dailyFileCache` object, keyed by period string. -/
abbrev CacheState := List (String × CacheEntry)

/-- JS property read `dailyFileCache[key]`. -/
def lookupKey (st : CacheState) (k : String) : Option CacheEntry :=
  (st.find? (fun p => p.1 == k)).map (fun p => p.2)

/-- JS assignment `dailyFileCache[key] = entry`. -/
def setKey (st : CacheState) (k : String) (e : CacheEntry) : CacheState :=
  if st.any (fun p => p.1 == k) then
    st.map (fun p => if p.1 = k then (k, e) else p)
  else st ++ [(k, e)]

/-- Result shape of `getCachedMonthly` (src/server.js:326-331). -/
structure CachedMonthly where
  year : ℤ
  month : ℤ
  data : MonthlyData
  deriving DecidableEq

/-- `getCachedMonthly(year, month)` (src/server.js:326-331). -/
def getCachedMonthly (st : CacheState) (year month : ℤ) : Option CachedMonthly :=
  match lookupKey st (getPeriodKey year month) with
  | none => none
  | some entry =>
    match entry.data with
    | none => none
    | some d => some ⟨entry.year, entry.month, d⟩

/-- Observable outcome of one `getMonthlyData` call: the returned data and
failures, the cache store afterwards, and how many times the upstream batch
(`fetchAllHistorical`) ran. -/
structure MonthlyOut where
  data : MonthlyData
  failed : List Failure
  state : CacheState
  upstreamBatches : ℕ
  deriving DecidableEq

/-- `getMonthlyData(year, month, { forceRefresh })` (src/server.js:348-381)
as a state transformer.  `today` stands for the calendar date of
`new Date()`; `items`/`oracle` feed the batch collector.  The asynchronous
coalesced disk flush (`scheduleSaveDailyCache`) has no effect on the
in-memory store and is not modelled. -/
def getMonthlyData (st : CacheState) (today : Date3) (year month : ℤ)
    (forceRefresh : Bool) (items : List Item)
    (oracle : Item → Except String (List DailyRecord)) : MonthlyOut :=
  let monthStart := formatYMD ⟨year, month, 1⟩
  let isCurrentMonth := year = today.year ∧ month = today.month
  let monthEnd :=
    if isCurrentMonth then formatYMD today
    else formatYMD ⟨year, month, daysInMonth year month⟩
  let key := getPeriodKey year month
  let cached := getCachedMonthly st year month
  match cached, forceRefresh with
  | some c, false => ⟨c.data, [], st, 0⟩
  | _, _ =>
    let fetched := fetchAllHistorical items oracle
    let results : MonthlyData := fetched.1.map fun p =>
      (p.1, filterToWindow monthStart monthEnd p.2)
    let toSave :=
      if forceRefresh then
        match cached with
        | some c => mergeMonthlyData c.data results
        | none => results
      else results
    ⟨toSave, fetched.2, setKey st key ⟨year, month, some toSave⟩, 1⟩

/-- `validateYearMonth` (src/server.js:281-288) after integer parsing;
`none` also covers unparseable (`NaN`) route parameters. -/
def validateYearMonth (y m : ℤ) : Option (ℤ × ℤ) :=
  if y < 2000 ∨ 2100 < y ∨ m < 1 ∨ 12 < m then none else some (y, m)

/-- Response envelope of `GET /api/daily/:year/:month`; the `items` echo and
HTTP plumbing are omitted. -/
structure DailyResponse where
  success : Bool
  data : MonthlyData
  failed : List Failure
  errorMsg : Option String
  deriving DecidableEq

/-- `GET /api/daily/:year/:month` (src/server.js:384-403): validation, then
`getMonthlyData` without refresh. -/
def apiDaily (st : CacheState) (today : Date3) (items : List Item)
    (oracle : Item → Except String (List DailyRecord)) (y m : ℤ) :
    DailyResponse × CacheState :=
  match validateYearMonth y m with
  | none => (⟨false, [], [], some ("잘못된 날짜 범위")⟩, st)
  | some _ =>
    let out := getMonthlyData st today y m false items oracle
    (⟨true, out.data, out.failed, none⟩, out.state)

/-- Response envelope of `GET /api/events/:year/:month`. -/
structure EventsResponse where
  success : Bool
  events : List (String × List EventOut)
  failed : List Failure
  errorMsg : Option String
  deriving DecidableEq

/-- `GET /api/events/:year/:month` (src/unnamed/part_003:688-760):
validation, monthly data (with optional refresh), candidate detection, news
lookup via `fetchMarketNews` (its cache/network state passed explicitly),
news-symbol gating, and date grouping. -/
def apiEvents (st : CacheState) (today : Date3) (items : List Item)
    (oracle : Item → Except String (List DailyRecord))
    (newsCached : Option (List NewsItem)) (apiKey : Option String)
    (newsUpstream : List NewsItem) (y m : ℤ) (refresh : Bool) :
    EventsResponse × CacheState :=
  match validateYearMonth y m with
  | none => (⟨false, [], [], some ("잘못된 날짜 범위")⟩, st)
  | some _ =>
    let out := getMonthlyData st today y m refresh items oracle
    let marketNews := fetchMarketNews newsCached apiKey newsUpstream
    let marketByDate := buildMarketNewsByDate marketNews
    let events := buildEvents items out.data marketByDate
    (⟨true, groupEventsByDate events, out.failed, none⟩, out.state)

/-- The instrument list of src/unnamed/part_001 (config/symbols.js). -/
def configItems : List Item :=
  [⟨"kospi", "코스피지수", "^KS11", "pt", none⟩,
   ⟨"kospi200", "코스피200지수", "^KS200", "pt", none⟩,
   ⟨"sp500", "S&P500지수", "^GSPC", "pt", some ("SPY")⟩,
   ⟨"sox", "필라델피아반도체지수", "^SOX", "pt", some ("SOXX")⟩,
   ⟨"usdkrw", "미국USD(원)", "KRW=X", "원", none⟩,
   ⟨"gold", "국제금값", "GC=F", "USD", some ("GLD")⟩,
   ⟨"brent", "브랜트유가격", "BZ=F", "USD", none⟩,
   ⟨"treasury10", "미국10년국채가격", "^TNX", "%", none⟩,
   ⟨"apple", "애플", "AAPL", "USD", some ("AAPL")⟩,
   ⟨"microsoft", "마이크로소프트", "MSFT", "USD", some ("MSFT")⟩,
   ⟨"sap", "SAP", "SAP", "EUR", some ("SAP")⟩,
   ⟨"nvidia", "앤비디아", "NVDA", "USD", some ("NVDA")⟩,
   ⟨"gaonchips", "가온칩스", "399720.KQ", "원", none⟩,
   ⟨"tiger_sp500_h", "TIGER S&P 500(H) ETF", "448290.KS", "원", some ("SPY")⟩,
   ⟨"tiger_sp500", "TIGER S&P 500 ETF", "360750.KS", "원", some ("SPY")⟩,
   ⟨"tiger_sox", "Tiger 필라델피아 지수", "381180.KS", "원", some ("SOXX")⟩,
   ⟨"krx_gold", "KRX금현물가격", "319640.KS", "원", none⟩,
   ⟨"alphabet", "알파벳A 가격", "GOOGL", "USD", some ("GOOGL")⟩]

/- Concrete inputs used to instantiate the theorems below. -/

/-- Sample monthly map: gold on Mar 3, brent on Mar 4. -/
def mdA : MonthlyData :=
  [("gold", [{ date := "2025-03-03", close := some 10 }]),
   ("brent", [{ date := "2025-03-04", close := some 20 }])]

/-- Sample monthly map touching only gold, on a date absent from `mdA`. -/
def mdB : MonthlyData :=
  [("gold", [{ date := "2025-03-05", close := some 11 }])]

/-- Existing gold series: Mar 3 and Mar 4. -/
def mdEgold : List DailyRecord :=
  [{ date := "2025-03-03", close := some 10 },
   { date := "2025-03-04", close := some 12 }]

/-- Fresh gold series: Mar 4 (colliding) and Mar 5. -/
def mdFgold : List DailyRecord :=
  [{ date := "2025-03-04", close := some 13 },
   { date := "2025-03-05", close := some 14 }]

/-- Sample existing map with two gold records. -/
def mdE : MonthlyData := [("gold", mdEgold)]

/-- Sample fresh map colliding with `mdE` on Mar 4. -/
def mdF : MonthlyData := [("gold", mdFgold)]

/-- Instrument of the spec scenario (a configured news symbol). -/
def c6item : Item := ⟨"sp500", "S&P500지수", "^GSPC", "pt", some ("SPY")⟩

/-- The spec scenario series: closes 100, 95, 88 on three consecutive days. -/
def c6data : List DailyRecord :=
  [{ date := "2025-01-02", close := some 100 },
   { date := "2025-01-03", close := some 95 },
   { date := "2025-01-04", close := some 88 }]

/-- Instrument without a configured news symbol. -/
def c4itemNoNews : Item := ⟨"kospi", "코스피지수", "^KS11", "pt", none⟩

/-- Two-instrument configuration for the news-gating witness. -/
def c4items : List Item := [c4itemNoNews, c6item]

/-- Raw data giving both instruments a qualifying (-12%) move. -/
def c4raw : MonthlyData :=
  [("kospi", [{ date := "2025-01-02", close := some 100 },
              { date := "2025-01-03", close := some 88 }]),
   ("sp500", [{ date := "2025-01-02", close := some 100 },
              { date := "2025-01-03", close := some 88 }])]

/-- Cache state holding a January-2025 snapshot. -/
def stCached : CacheState :=
  [(getPeriodKey 2025 1,
    ⟨2025, 1, some [("gold", [{ date := "2025-01-03", close := some 10 }])]⟩)]

/-- Batch oracle failing only for brent, succeeding elsewhere. -/
def c9oracle : Item → Except String (List DailyRecord) :=
  fun it =>
    if it.id == "brent" then Except.error fetchExhaustedMsg
    else Except.ok [{ date := "2025-01-03", close := some 10 }]

/-- Two-instrument batch for the partial-failure witness. -/
def c9items : List Item :=
  [⟨"gold", "국제금값", "GC=F", "USD", some ("GLD")⟩,
   ⟨"brent", "브랜트유가격", "BZ=F", "USD", none⟩]

/-- Oracle on which every instrument fails. -/
def allFailOracle : Item → Except String (List DailyRecord) :=
  fun _ => Except.error fetchExhaustedMsg

/-- The day-3 candidate of the spec scenario. -/
def c6ev : CandidateEvent :=
  { date := "2025-01-04", item := c6item.name, itemObj := c6item,
    change := ((88 : ℚ) - 95) / 95 * 100, type := "하락" }

/-- The sp500 candidate of the gating witness (-12 percent on Jan 3). -/
def c4ev : CandidateEvent :=
  { date := "2025-01-03", item := c6item.name, itemObj := c6item,
    change := ((88 : ℚ) - 100) / 100 * 100, type := "하락" }

/-- The failing instrument of the batch-failure witness. -/
def c9bad : Item := ⟨"brent", "브랜트유가격", "BZ=F", "USD", none⟩

/-- Cache state for the no-API-key scenario: a January-2025 snapshot whose
sp500 series falls 10 percent from Jan 2 to Jan 3. -/
def c8state : CacheState :=
  [(getPeriodKey 2025 1,
    ⟨2025, 1, some [("sp500", [{ date := "2025-01-02", close := some 100 },
                               { date := "2025-01-03", close := some 90 }])]⟩)]

/- Auxiliary lemmas about the `byDate` map of `mergeMonthlyData`. -/

theorem dates_nil : dates [] = [] := rfl

theorem dates_cons (d : DailyRecord) (l : List DailyRecord) :
    dates (d :: l) = d.date :: dates l := rfl

theorem dates_append (a b : List DailyRecord) :
    dates (a ++ b) = dates a ++ dates b := List.map_append _ a b

theorem mem_dates {l : List DailyRecord} {s : String} :
    s ∈ dates l ↔ ∃ r ∈ l, r.date = s := by
  simp [dates]

theorem setByDate_of_not_mem {m : List DailyRecord} {d : DailyRecord}
    (h : d.date ∉ dates m) : setByDate m d = m ++ [d] := by
  unfold setByDate
  rw [if_neg]
  simp only [List.any_eq_true, beq_iff_eq, not_exists, not_and]
  intro e he hd
  exact h (mem_dates.mpr ⟨e, he, hd⟩)

theorem dates_setByDate_of_mem {m : List DailyRecord} {d : DailyRecord}
    (h : d.date ∈ dates m) : dates (setByDate m d) = dates m := by
  obtain ⟨r, hr, hrd⟩ := mem_dates.mp h
  unfold setByDate
  rw [if_pos]
  · unfold dates
    rw [List.map_map]
    apply List.map_congr_left
    intro e _
    by_cases h2 : e.date = d.date <;> simp [h2]
  · exact List.any_eq_true.mpr ⟨r, hr, beq_iff_eq.mpr hrd⟩

theorem nodupDates_setByDate {m : List DailyRecord} {d : DailyRecord}
    (h : (dates m).Nodup) : (dates (setByDate m d)).Nodup := by
  by_cases hd : d.date ∈ dates m
  · rw [dates_setByDate_of_mem hd]; exact h
  · rw [setByDate_of_not_mem hd, dates_append]
    simp only [dates_cons, dates_nil]
    exact List.Nodup.append h (List.nodup_singleton _) (by simpa using hd)

theorem mem_setByDate_self (m : List DailyRecord) (d : DailyRecord) :
    d ∈ setByDate m d := by
  unfold setByDate
  split
  · next hc =>
      simp only [List.any_eq_true, beq_iff_eq] at hc
      obtain ⟨e, he, hde⟩ := hc
      exact List.mem_map.mpr ⟨e, he, by simp [hde]⟩
  · simp

theorem mem_setByDate_of_ne {m : List DailyRecord} {d x : DailyRecord}
    (hx : x ∈ m) (hne : x.date ≠ d.date) : x ∈ setByDate m d := by
  unfold setByDate
  split
  · exact List.mem_map.mpr ⟨x, hx, by simp [hne]⟩
  · exact List.mem_append.mpr (Or.inl hx)

theorem mem_of_mem_setByDate {m : List DailyRecord} {d x : DailyRecord}
    (h : x ∈ setByDate m d) : x = d ∨ x ∈ m := by
  unfold setByDate at h
  split at h
  · obtain ⟨e, he, hex⟩ := List.mem_map.mp h
    by_cases h2 : e.date = d.date
    · left; rw [← hex]; simp [h2]
    · right; rw [← hex]; simpa [h2] using he
  · rcases List.mem_append.mp h with h | h
    · right; exact h
    · left; simpa using h

theorem dates_subset_setByDate {m : List DailyRecord} {d : DailyRecord} {s : String}
    (h : s ∈ dates m) : s ∈ dates (setByDate m d) := by
  by_cases hd : d.date ∈ dates m
  · rw [dates_setByDate_of_mem hd]; exact h
  · rw [setByDate_of_not_mem hd, dates_append]; exact List.mem_append.mpr (Or.inl h)

theorem nodupDates_foldl_setByDate :
    ∀ (l : List DailyRecord) (acc : List DailyRecord),
      (dates acc).Nodup → (dates (l.foldl setByDate acc)).Nodup
  | [], _, h => h
  | d :: t, acc, h => by
      rw [List.foldl_cons]
      exact nodupDates_foldl_setByDate t _ (nodupDates_setByDate h)

theorem mem_of_mem_foldl_setByDate :
    ∀ (l : List DailyRecord) (acc : List DailyRecord) (x : DailyRecord),
      x ∈ l.foldl setByDate acc → x ∈ acc ∨ x ∈ l
  | [], _, _, h => Or.inl h
  | d :: t, acc, x, h => by
      rw [List.foldl_cons] at h
      rcases mem_of_mem_foldl_setByDate t _ x h with h1 | h1
      · rcases mem_of_mem_setByDate h1 with h2 | h2
        · exact Or.inr (h2 ▸ List.mem_cons_self d t)
        · exact Or.inl h2
      · exact Or.inr (List.mem_cons_of_mem d h1)

theorem foldl_setByDate_append_eq :
    ∀ (l : List DailyRecord) (acc : List DailyRecord),
      (dates l).Nodup → (∀ e ∈ l, e.date ∉ dates acc) →
      l.foldl setByDate acc = acc ++ l
  | [], acc, _, _ => by simp
  | d :: t, acc, h1, h2 => by
      rw [List.foldl_cons, setByDate_of_not_mem (h2 d (List.mem_cons_self d t))]
      rw [dates_cons] at h1
      have ht := foldl_setByDate_append_eq t (acc ++ [d]) h1.of_cons ?_
      · rw [ht, List.append_assoc]; rfl
      · intro e he
        rw [dates_append]
        simp only [dates_cons, dates_nil, List.mem_append, List.mem_singleton]
        rintro (hc | hc)
        · exact h2 e (List.mem_cons_of_mem d he) hc
        · exact (List.nodup_cons.mp h1).1 (hc ▸ List.mem_map_of_mem _ he)

theorem mem_foldl_setByDate_of_mem_acc :
    ∀ (l : List DailyRecord) (acc : List DailyRecord) (x : DailyRecord),
      x ∈ acc → (∀ e ∈ l, e.date ≠ x.date) → x ∈ l.foldl setByDate acc
  | [], _, _, hx, _ => hx
  | d :: t, acc, x, hx, h => by
      rw [List.foldl_cons]
      exact mem_foldl_setByDate_of_mem_acc t _ x
        (mem_setByDate_of_ne hx fun hc => h d (List.mem_cons_self d t) hc.symm)
        (fun e he => h e (List.mem_cons_of_mem d he))

theorem mem_foldl_setByDate_last :
    ∀ (l1 : List DailyRecord) (x : DailyRecord) (l2 : List DailyRecord)
      (acc : List DailyRecord), (∀ e ∈ l2, e.date ≠ x.date) →
      x ∈ (l1 ++ x :: l2).foldl setByDate acc
  | [], x, l2, acc, h => by
      rw [List.nil_append, List.foldl_cons]
      exact mem_foldl_setByDate_of_mem_acc l2 _ x (mem_setByDate_self acc x) h
  | d :: t, x, l2, acc, h => by
      rw [List.cons_append, List.foldl_cons]
      exact mem_foldl_setByDate_last t x l2 _ h

theorem exists_last_with_date :
    ∀ (l : List DailyRecord) (s : String), s ∈ dates l →
      ∃ l1 x l2, l = l1 ++ x :: l2 ∧ x.date = s ∧ ∀ e ∈ l2, e.date ≠ s
  | [], s, h => by simp [dates] at h
  | d :: t, s, h => by
      by_cases ht : s ∈ dates t
      · obtain ⟨l1, x, l2, heq, hx, hl2⟩ := exists_last_with_date t s ht
        exact ⟨d :: l1, x, l2, by rw [heq]; rfl, hx, hl2⟩
      · have hd : d.date = s := by
          rw [dates_cons] at h
          rcases List.mem_cons.mp h with h | h
          · exact h.symm
          · exact absurd h ht
        exact ⟨[], d, t, rfl, hd, fun e he hc => ht (mem_dates.mpr ⟨e, he, hc⟩)⟩

theorem nodupDates_byDateMap (l : List DailyRecord) :
    (dates (byDateMap l)).Nodup :=
  nodupDates_foldl_setByDate l [] (by simp [dates])

theorem mem_of_mem_byDateMap {l : List DailyRecord} {x : DailyRecord}
    (h : x ∈ byDateMap l) : x ∈ l :=
  (mem_of_mem_foldl_setByDate l [] x h).resolve_left (by simp)

theorem byDateMap_eq_self {l : List DailyRecord} (h : (dates l).Nodup) :
    byDateMap l = l := by
  have := foldl_setByDate_append_eq l [] h (by simp [dates])
  simpa [byDateMap] using this

theorem mem_byDateMap_last {l1 l2 : List DailyRecord} {x : DailyRecord}
    (h : ∀ e ∈ l2, e.date ≠ x.date) : x ∈ byDateMap (l1 ++ x :: l2) :=
  mem_foldl_setByDate_last l1 x l2 [] h

theorem mem_dates_byDateMap {l : List DailyRecord} {s : String} :
    s ∈ dates (byDateMap l) ↔ s ∈ dates l := by
  constructor
  · intro h
    obtain ⟨r, hr, hrd⟩ := mem_dates.mp h
    exact mem_dates.mpr ⟨r, mem_of_mem_byDateMap hr, hrd⟩
  · intro h
    obtain ⟨l1, x, l2, heq, hx, hl2⟩ := exists_last_with_date l s h
    refine mem_dates.mpr ⟨x, ?_, hx⟩
    rw [heq]
    exact mem_byDateMap_last fun e he => hx.symm ▸ hl2 e he

theorem eq_of_same_date {l : List DailyRecord} {x y : DailyRecord}
    (h : (dates l).Nodup) (hx : x ∈ l) (hy : y ∈ l) (hd : x.date = y.date) :
    x = y :=
  List.inj_on_of_nodup_map h hx hy hd

/- Sorting lemmas. -/

theorem sortByDate_perm (l : List DailyRecord) : (sortByDate l).Perm l :=
  List.perm_insertionSort byDateLe l

theorem sortByDate_sorted (l : List DailyRecord) :
    List.Sorted byDateLe (sortByDate l) :=
  List.sorted_insertionSort byDateLe l

theorem nodupDates_of_perm {l1 l2 : List DailyRecord} (h : l1.Perm l2)
    (hn : (dates l1).Nodup) : (dates l2).Nodup := by
  unfold dates at hn ⊢
  exact ((h.map (fun r => r.date)).nodup_iff).mp hn

theorem eq_of_perm_sorted_nodupDates {l1 l2 : List DailyRecord}
    (h : l1.Perm l2) (s1 : List.Sorted byDateLe l1) (s2 : List.Sorted byDateLe l2)
    (hn : (dates l1).Nodup) : l1 = l2 := by
  haveI : IsAntisymm DailyRecord (fun a b => a.date < b.date) :=
    ⟨fun a b h1 h2 => absurd (lt_trans h1 h2) (lt_irrefl _)⟩
  have hne1 : l1.Pairwise (fun a b => a.date ≠ b.date) := List.pairwise_map.mp hn
  have hne2 : l2.Pairwise (fun a b => a.date ≠ b.date) :=
    List.pairwise_map.mp (nodupDates_of_perm h hn)
  refine List.eq_of_perm_of_sorted (r := fun a b => a.date < b.date) h ?_ ?_
  · exact (s1.and hne1).imp fun hab => lt_of_le_of_ne hab.1 hab.2
  · exact (s2.and hne2).imp fun hab => lt_of_le_of_ne hab.1 hab.2

theorem sortByDate_eq_of_mem_iff {u m : List DailyRecord}
    (hu : (dates u).Nodup) (hm : (dates m).Nodup)
    (hms : List.Sorted byDateLe m) (hmem : ∀ x, x ∈ u ↔ x ∈ m) :
    sortByDate u = m := by
  have hnu : u.Nodup := List.Nodup.of_map _ hu
  have hnm : m.Nodup := List.Nodup.of_map _ hm
  have hperm : u.Perm m := (List.perm_ext_iff_of_nodup hnu hnm).mpr hmem
  exact eq_of_perm_sorted_nodupDates ((sortByDate_perm u).trans hperm)
    (sortByDate_sorted u) hms
    (nodupDates_of_perm (sortByDate_perm u).symm hu)

/- Lemmas about `mergeSeries`. -/

theorem nodupDates_mergeSeries (a b : List DailyRecord) :
    (dates (mergeSeries a b)).Nodup :=
  nodupDates_of_perm (sortByDate_perm _).symm (nodupDates_byDateMap _)

theorem mergeSeries_sorted (a b : List DailyRecord) :
    List.Sorted byDateLe (mergeSeries a b) :=
  sortByDate_sorted _

theorem mem_mergeSeries {a b : List DailyRecord} {x : DailyRecord} :
    x ∈ mergeSeries a b ↔ x ∈ byDateMap (a ++ b) :=
  (sortByDate_perm _).mem_iff

theorem mergeSeries_nil {a : List DailyRecord} (h : (dates a).Nodup) :
    mergeSeries a [] = sortByDate a := by
  unfold mergeSeries
  rw [List.append_nil, byDateMap_eq_self h]

theorem mem_byDateMap_append_right {a b : List DailyRecord} {x : DailyRecord}
    (hb : (dates b).Nodup) (hx : x ∈ b) : x ∈ byDateMap (a ++ b) := by
  obtain ⟨b1, b2, heq⟩ := List.append_of_mem hx
  subst heq
  have hxd : x.date ∉ dates b2 := by
    rw [dates_append, dates_cons] at hb
    exact (List.nodup_cons.mp (List.nodup_append.mp hb).2.1).1
  rw [← List.append_assoc]
  exact mem_byDateMap_last fun e he hc => hxd (hc ▸ List.mem_map_of_mem _ he)

theorem mem_mergeSeries_of_mem_fresh {a b : List DailyRecord} {x : DailyRecord}
    (hb : (dates b).Nodup) (hx : x ∈ b) : x ∈ mergeSeries a b :=
  mem_mergeSeries.mpr (mem_byDateMap_append_right hb hx)

theorem mem_mergeSeries_of_mem_existing {a b : List DailyRecord} {x : DailyRecord}
    (ha : (dates a).Nodup) (hx : x ∈ a) (hxb : x.date ∉ dates b) :
    x ∈ mergeSeries a b := by
  apply mem_mergeSeries.mpr
  obtain ⟨a1, a2, heq⟩ := List.append_of_mem hx
  subst heq
  have hxd : x.date ∉ dates a2 := by
    rw [dates_append, dates_cons] at ha
    exact (List.nodup_cons.mp (List.nodup_append.mp ha).2.1).1
  rw [List.append_assoc, List.cons_append]
  apply mem_byDateMap_last
  intro e he
  rcases List.mem_append.mp he with h | h
  · exact fun hc => hxd (hc ▸ List.mem_map_of_mem _ h)
  · exact fun hc => hxb (hc ▸ List.mem_map_of_mem _ h)

theorem mem_mergeSeries_cases {a b : List DailyRecord} {x : DailyRecord}
    (hb : (dates b).Nodup) (hx : x ∈ mergeSeries a b) :
    x ∈ b ∨ (x ∈ a ∧ x.date ∉ dates b) := by
  have hmem : x ∈ a ++ b := mem_of_mem_byDateMap (mem_mergeSeries.mp hx)
  by_cases hdb : x.date ∈ dates b
  · obtain ⟨r, hr, hrd⟩ := mem_dates.mp hdb
    have hrm : r ∈ mergeSeries a b := mem_mergeSeries_of_mem_fresh hb hr
    have hxr : x = r :=
      eq_of_same_date (nodupDates_mergeSeries a b) hx hrm hrd.symm
    exact Or.inl (hxr ▸ hr)
  · rcases List.mem_append.mp hmem with h | h
    · exact Or.inr ⟨h, hdb⟩
    · exact Or.inl h

theorem mem_dates_mergeSeries {a b : List DailyRecord} {s : String} :
    s ∈ dates (mergeSeries a b) ↔ s ∈ dates a ∨ s ∈ dates b := by
  have h1 : s ∈ dates (mergeSeries a b) ↔ s ∈ dates (byDateMap (a ++ b)) :=
    ((sortByDate_perm (byDateMap (a ++ b))).map (fun r => r.date)).mem_iff
  rw [h1, mem_dates_byDateMap, dates_append, List.mem_append]

theorem mergeSeries_idem {a b : List DailyRecord} (hb : (dates b).Nodup) :
    mergeSeries (mergeSeries a b) b = mergeSeries a b := by
  have hmem : ∀ x, x ∈ byDateMap (mergeSeries a b ++ b) ↔ x ∈ mergeSeries a b := by
    intro x
    constructor
    · intro hx
      rcases List.mem_append.mp (mem_of_mem_byDateMap hx) with h | h
      · exact h
      · exact mem_mergeSeries_of_mem_fresh hb h
    · intro hx
      by_cases hdb : x.date ∈ dates b
      · obtain ⟨r, hr, hrd⟩ := mem_dates.mp hdb
        have hrm : r ∈ mergeSeries a b := mem_mergeSeries_of_mem_fresh hb hr
        have hxr : x = r :=
          eq_of_same_date (nodupDates_mergeSeries a b) hx hrm hrd.symm
        exact mem_byDateMap_append_right hb (hxr ▸ hr)
      · obtain ⟨m1, m2, heq⟩ := List.append_of_mem hx
        have hxd : x.date ∉ dates m2 := by
          have hnm : (dates (mergeSeries a b)).Nodup := nodupDates_mergeSeries a b
          rw [heq, dates_append, dates_cons] at hnm
          exact (List.nodup_cons.mp (List.nodup_append.mp hnm).2.1).1
        rw [heq, List.append_assoc, List.cons_append]
        apply mem_byDateMap_last
        intro e he
        rcases List.mem_append.mp he with h | h
        · exact fun hc => hxd (hc ▸ List.mem_map_of_mem _ h)
        · exact fun hc => hdb (hc ▸ List.mem_map_of_mem _ h)
  exact sortByDate_eq_of_mem_iff (nodupDates_byDateMap _)
    (nodupDates_mergeSeries a b) (mergeSeries_sorted a b) hmem

theorem mergeSeries_sort_idem {b : List DailyRecord} (hb : (dates b).Nodup) :
    mergeSeries (sortByDate b) b = sortByDate b := by
  have hsb : (dates (sortByDate b)).Nodup :=
    nodupDates_of_perm (sortByDate_perm b).symm hb
  have hmem : ∀ x, x ∈ byDateMap (sortByDate b ++ b) ↔ x ∈ sortByDate b := by
    intro x
    constructor
    · intro hx
      rcases List.mem_append.mp (mem_of_mem_byDateMap hx) with h | h
      · exact h
      · exact (sortByDate_perm b).mem_iff.mpr h
    · intro hx
      exact mem_byDateMap_append_right hb ((sortByDate_perm b).mem_iff.mp hx)
  exact sortByDate_eq_of_mem_iff (nodupDates_byDateMap _) hsb
    (sortByDate_sorted b) hmem

theorem mergeSeries_nil_of_sorted {m : List DailyRecord}
    (hm : (dates m).Nodup) (hms : List.Sorted byDateLe m) :
    mergeSeries m [] = m := by
  rw [mergeSeries_nil hm]
  exact hms.insertionSort_eq

/- Lookup characterization of `mergeMonthlyData`. -/

theorem lookupId_mapEntries (m : MonthlyData)
    (g : String → List DailyRecord → List DailyRecord) (id : String) :
    lookupId (m.map fun p => (p.1, g p.1 p.2)) id =
      (lookupId m id).map (fun v => g id v) := by
  induction m with
  | nil => rfl
  | cons p t ih =>
    by_cases h : p.1 = id
    · simp [lookupId, List.find?_cons_of_pos, beq_iff_eq, h]
    · unfold lookupId at ih ⊢
      rw [List.map_cons, List.find?_cons_of_neg _ (by simpa using h),
        List.find?_cons_of_neg _ (by simpa using h)]
      exact ih

theorem lookupId_append (X Y : MonthlyData) (id : String) :
    lookupId (X ++ Y) id =
      match lookupId X id with
      | some v => some v
      | none => lookupId Y id := by
  induction X with
  | nil => rfl
  | cons p t ih =>
    by_cases h : p.1 = id
    · simp [lookupId, List.find?_cons_of_pos, beq_iff_eq, h]
    · unfold lookupId at ih ⊢
      rw [List.cons_append, List.find?_cons_of_neg _ (by simpa using h),
        List.find?_cons_of_neg _ (by simpa using h)]
      exact ih

theorem hasId_eq_false {E : MonthlyData} {id : String}
    (h : lookupId E id = none) : hasId E id = false := by
  unfold lookupId at h
  unfold hasId
  rw [Option.map_eq_none'] at h
  rw [List.find?_eq_none] at h
  simp only [List.any_eq_false]
  intro p hp
  simpa using h p hp

theorem find?_filter_not_hasId (F E : MonthlyData) (id : String)
    (hE : lookupId E id = none) :
    (F.filter fun p => ! hasId E p.1).find? (fun p => p.1 == id) =
      F.find? (fun p => p.1 == id) := by
  induction F with
  | nil => rfl
  | cons p t ih =>
    rw [List.filter_cons]
    by_cases h : p.1 = id
    · have hkeep : (! hasId E p.1) = true := by
        rw [h, hasId_eq_false hE]; rfl
      rw [if_pos hkeep, List.find?_cons_of_pos _ (by simpa using h),
        List.find?_cons_of_pos _ (by simpa using h)]
    · by_cases hk : (! hasId E p.1) = true
      · rw [if_pos hk, List.find?_cons_of_neg _ (by simpa using h),
          List.find?_cons_of_neg _ (by simpa using h)]
        exact ih
      · rw [if_neg hk, List.find?_cons_of_neg _ (by simpa using h)]
        exact ih

theorem lookupId_mergeMonthlyData (E F : MonthlyData) (id : String) :
    lookupId (mergeMonthlyData E F) id =
      match lookupId E id with
      | some a => some (mergeSeries a ((lookupId F id).getD []))
      | none =>
        match lookupId F id with
        | some f => some (sortByDate f)
        | none => none := by
  unfold mergeMonthlyData
  rw [lookupId_append]
  have h1 : lookupId (E.map fun p => (p.1, mergeSeries p.2 ((lookupId F p.1).getD []))) id
      = (lookupId E id).map (fun v => mergeSeries v ((lookupId F id).getD [])) :=
    lookupId_mapEntries E (fun k v => mergeSeries v ((lookupId F k).getD [])) id
  rw [h1]
  cases hE : lookupId E id with
  | some a => rfl
  | none =>
    simp only [Option.map_none]
    have h2 : lookupId ((F.filter fun p => ! hasId E p.1).map fun p => (p.1, sortByDate p.2)) id
        = (lookupId (F.filter fun p => ! hasId E p.1) id).map sortByDate :=
      lookupId_mapEntries _ (fun _ v => sortByDate v) id
    rw [h2]
    unfold lookupId
    rw [find?_filter_not_hasId F E id hE]
    cases F.find? (fun p => p.1 == id) <;> rfl

theorem mergeSeries_comm {a b : List DailyRecord}
    (ha : (dates a).Nodup) (hb : (dates b).Nodup)
    (hdisj : ∀ s ∈ dates a, s ∉ dates b) :
    mergeSeries a b = mergeSeries b a := by
  have hab : (dates (a ++ b)).Nodup := by
    rw [dates_append]
    exact ha.append hb fun s hs => hdisj s hs
  have hba : (dates (b ++ a)).Nodup := by
    rw [dates_append]
    exact hb.append ha fun s hs hs2 => hdisj s hs2 hs
  unfold mergeSeries
  rw [byDateMap_eq_self hab, byDateMap_eq_self hba]
  refine eq_of_perm_sorted_nodupDates ?_ (sortByDate_sorted _) (sortByDate_sorted _) ?_
  · exact (sortByDate_perm _).trans (List.perm_append_comm.trans (sortByDate_perm _).symm)
  · exact nodupDates_of_perm (sortByDate_perm _).symm hab

theorem lookupId_some_mem {m : MonthlyData} {id : String} {a : List DailyRecord}
    (h : lookupId m id = some a) : ∃ p ∈ m, p.1 = id ∧ p.2 = a := by
  unfold lookupId at h
  cases hf : m.find? (fun p => p.1 == id) with
  | none => rw [hf] at h; cases h
  | some p =>
    rw [hf] at h
    refine ⟨p, List.mem_of_find?_eq_some hf, ?_, ?_⟩
    · simpa using List.find?_some hf
    · simpa using h

/-- C1: over monthly data maps satisfying the DailyRecord invariant
(per-instrument records unique by date), `mergeMonthlyData` is commutative
per instrument whenever the two maps hold disjoint date sets for every
shared instrument; and for all such maps,
`mergeMonthlyData (mergeMonthlyData A B) B` agrees per instrument with
`mergeMonthlyData A B` (idempotence of re-merging the same fresh data). -/
theorem claim_C1 (A B : MonthlyData)
    (hB : ∀ p ∈ B, (dates p.2).Nodup) :
    ((∀ p ∈ A, (dates p.2).Nodup) →
      (∀ p ∈ A, ∀ q ∈ B, p.1 = q.1 → ∀ s ∈ dates p.2, s ∉ dates q.2) →
      ∀ id, lookupId (mergeMonthlyData A B) id = lookupId (mergeMonthlyData B A) id)
    ∧ (∀ id, lookupId (mergeMonthlyData (mergeMonthlyData A B) B) id
        = lookupId (mergeMonthlyData A B) id) := by
  constructor
  · intro hA hdisj id
    rw [lookupId_mergeMonthlyData A B id, lookupId_mergeMonthlyData B A id]
    cases hEA : lookupId A id with
    | some a =>
      obtain ⟨p, hp, hpid, hpa⟩ := lookupId_some_mem hEA
      have ha : (dates a).Nodup := hpa ▸ hA p hp
      cases hEB : lookupId B id with
      | some b =>
        obtain ⟨q, hq, hqid, hqb⟩ := lookupId_some_mem hEB
        have hb : (dates b).Nodup := hqb ▸ hB q hq
        have hd : ∀ s ∈ dates a, s ∉ dates b := by
          intro s hs
          have := hdisj p hp q hq (by rw [hpid, hqid])
          exact hqb ▸ this s (hpa ▸ hs)
        simp only [Option.getD_some]
        rw [mergeSeries_comm ha hb hd]
      | none =>
        simp only [Option.getD_none]
        rw [mergeSeries_nil ha]
    | none =>
      cases hEB : lookupId B id with
      | some b =>
        obtain ⟨q, hq, hqid, hqb⟩ := lookupId_some_mem hEB
        have hb : (dates b).Nodup := hqb ▸ hB q hq
        simp only [Option.getD_none]
        rw [mergeSeries_nil hb]
      | none => rfl
  · intro id
    rw [lookupId_mergeMonthlyData (mergeMonthlyData A B) B id,
      lookupId_mergeMonthlyData A B id]
    cases hEA : lookupId A id with
    | some a =>
      cases hEB : lookupId B id with
      | some b =>
        obtain ⟨q, hq, hqid, hqb⟩ := lookupId_some_mem hEB
        have hb : (dates b).Nodup := hqb ▸ hB q hq
        simp only [Option.getD_some]
        rw [mergeSeries_idem hb]
      | none =>
        simp only [Option.getD_none]
        rw [mergeSeries_nil_of_sorted (nodupDates_mergeSeries a [])
          (mergeSeries_sorted a [])]
    | none =>
      cases hEB : lookupId B id with
      | some b =>
        obtain ⟨q, hq, hqid, hqb⟩ := lookupId_some_mem hEB
        have hb : (dates b).Nodup := hqb ▸ hB q hq
        simp only [Option.getD_some]
        rw [mergeSeries_sort_idem hb]
      | none => rfl

/-- Witness for C1 at the concrete maps `mdA`, `mdB`. -/
theorem claim_C1_witness :
    lookupId (mergeMonthlyData mdA mdB) "gold"
        = lookupId (mergeMonthlyData mdB mdA) "gold" ∧
    lookupId (mergeMonthlyData (mergeMonthlyData mdA mdB) mdB) "brent"
        = lookupId (mergeMonthlyData mdA mdB) "brent" := by
  have h := claim_C1 mdA mdB (by decide)
  exact ⟨h.1 (by decide) (by decide) "gold", h.2 "brent"⟩

/-- C2: per-instrument functional correctness of `mergeMonthlyData` over
maps satisfying the DailyRecord invariant.  If the id is present in both
maps, the merged series holds exactly one record per date from the union of
both date sets, records come from fresh or (on non-colliding dates) from
existing, every fresh record and every non-colliding existing record
survives, and the result is sorted by date.  If the id is absent from
fresh, the prior series is kept up to sorting; if absent from existing, the
fresh series is added sorted.  No date of either input is dropped. -/
theorem claim_C2 (E F : MonthlyData)
    (hE : ∀ p ∈ E, (dates p.2).Nodup) (hF : ∀ p ∈ F, (dates p.2).Nodup)
    (id : String) :
    (∀ a f, lookupId E id = some a → lookupId F id = some f →
      ∃ m, lookupId (mergeMonthlyData E F) id = some m ∧
        (dates m).Nodup ∧ List.Sorted byDateLe m ∧
        (∀ s, s ∈ dates m ↔ s ∈ dates a ∨ s ∈ dates f) ∧
        (∀ r ∈ m, r ∈ f ∨ (r ∈ a ∧ r.date ∉ dates f)) ∧
        (∀ r ∈ f, r ∈ m) ∧
        (∀ r ∈ a, r.date ∉ dates f → r ∈ m))
    ∧ (∀ a, lookupId E id = some a → lookupId F id = none →
        lookupId (mergeMonthlyData E F) id = some (sortByDate a) ∧
        (sortByDate a).Perm a ∧ List.Sorted byDateLe (sortByDate a))
    ∧ (∀ f, lookupId E id = none → lookupId F id = some f →
        lookupId (mergeMonthlyData E F) id = some (sortByDate f) ∧
        (sortByDate f).Perm f ∧ List.Sorted byDateLe (sortByDate f)) := by
  refine ⟨?_, ?_, ?_⟩
  · intro a f hEA hEF
    obtain ⟨p, hp, hpid, hpa⟩ := lookupId_some_mem hEA
    obtain ⟨q, hq, hqid, hqf⟩ := lookupId_some_mem hEF
    have ha : (dates a).Nodup := hpa ▸ hE p hp
    have hf : (dates f).Nodup := hqf ▸ hF q hq
    refine ⟨mergeSeries a f, ?_, nodupDates_mergeSeries a f, mergeSeries_sorted a f,
      fun s => mem_dates_mergeSeries, fun r hr => mem_mergeSeries_cases hf hr,
      fun r hr => mem_mergeSeries_of_mem_fresh hf hr,
      fun r hr hrf => mem_mergeSeries_of_mem_existing ha hr hrf⟩
    rw [lookupId_mergeMonthlyData E F id, hEA, hEF]
    rfl
  · intro a hEA hEF
    obtain ⟨p, hp, hpid, hpa⟩ := lookupId_some_mem hEA
    have ha : (dates a).Nodup := hpa ▸ hE p hp
    refine ⟨?_, sortByDate_perm a, sortByDate_sorted a⟩
    rw [lookupId_mergeMonthlyData E F id, hEA, hEF]
    simp only [Option.getD_none]
    rw [mergeSeries_nil ha]
  · intro f hEA hEF
    refine ⟨?_, sortByDate_perm f, sortByDate_sorted f⟩
    rw [lookupId_mergeMonthlyData E F id, hEA, hEF]

/-- Witness for C2 at the concrete maps `mdE`, `mdF` (colliding on one
date). -/
theorem claim_C2_witness :
    ∃ m, lookupId (mergeMonthlyData mdE mdF) "gold" = some m ∧
      (dates m).Nodup ∧ List.Sorted byDateLe m ∧
      (∀ s, s ∈ dates m ↔ s ∈ dates mdEgold ∨ s ∈ dates mdFgold) ∧
      (∀ r ∈ m, r ∈ mdFgold ∨ (r ∈ mdEgold ∧ r.date ∉ dates mdFgold)) ∧
      (∀ r ∈ mdFgold, r ∈ m) ∧
      (∀ r ∈ mdEgold, r.date ∉ dates mdFgold → r ∈ m) :=
  (claim_C2 mdE mdF (by decide) (by decide) "gold").1 mdEgold mdFgold
    (by decide) (by decide)

/- Candidate-detection lemmas. -/

theorem candidateEvents_eq_zip (it : Item) :
    ∀ data : List DailyRecord,
      candidateEvents it data
        = (data.zip data.tail).filterMap fun pr => candidatePair it pr.1 pr.2
  | [] => rfl
  | [_] => rfl
  | x :: y :: t => by
    show (candidatePair it x y).toList ++ candidateEvents it (y :: t) = _
    rw [List.tail_cons, List.zip_cons_cons, List.filterMap_cons,
      candidateEvents_eq_zip it (y :: t), List.tail_cons]
    cases h : candidatePair it x y <;> simp [h]

theorem riseFall_iff (x : ℚ) (hx : x ≠ 0) :
    ((if 0 < x then "상승" else "하락") = "상승" ↔ 0 < x) ∧
      ((if 0 < x then "상승" else "하락") = "하락" ↔ x < 0) := by
  by_cases hpos : 0 < x
  · rw [if_pos hpos]
    exact ⟨iff_of_true rfl hpos, iff_of_false (by decide) (asymm hpos)⟩
  · have hlt : x < 0 := lt_of_le_of_ne (le_of_not_lt hpos) hx
    rw [if_neg hpos]
    exact ⟨iff_of_false (by decide) hpos, iff_of_true rfl hlt⟩

theorem candidatePair_some_iff (it : Item) (prevR currR : DailyRecord) :
    (∃ ev, candidatePair it prevR currR = some ev) ↔
      ∃ p c, prevR.close = some p ∧ currR.close = some c ∧ p ≠ 0 ∧
        3 ≤ |(c - p) / p * 100| := by
  constructor
  · rintro ⟨ev, hev⟩
    cases hp : prevR.close with
    | none => simp [candidatePair, hp] at hev
    | some p =>
      cases hc : currR.close with
      | none => simp [candidatePair, hp, hc] at hev
      | some c =>
        simp only [candidatePair, hp, hc] at hev
        by_cases h1 : p = 0
        · rw [if_pos h1] at hev; cases hev
        · rw [if_neg h1] at hev
          by_cases h2 : 3 ≤ |(c - p) / p * 100|
          · exact ⟨p, c, rfl, rfl, h1, h2⟩
          · rw [if_neg h2] at hev; cases hev
  · rintro ⟨p, c, hp, hc, hp0, hge⟩
    refine ⟨{ date := currR.date, item := it.name, itemObj := it,
              change := (c - p) / p * 100,
              type := if 0 < (c - p) / p * 100 then "상승" else "하락" }, ?_⟩
    simp only [candidatePair, hp, hc]
    rw [if_neg hp0, if_pos hge]

theorem candidatePair_props {it : Item} {prevR currR : DailyRecord}
    {ev : CandidateEvent} (hev : candidatePair it prevR currR = some ev) :
    ev.itemObj = it ∧ 3 ≤ |ev.change| ∧ (ev.type = "상승" ↔ 0 < ev.change) ∧
      (ev.type = "하락" ↔ ev.change < 0) := by
  cases hp : prevR.close with
  | none => simp [candidatePair, hp] at hev
  | some p =>
    cases hc : currR.close with
    | none => simp [candidatePair, hp, hc] at hev
    | some c =>
      simp only [candidatePair, hp, hc] at hev
      by_cases h1 : p = 0
      · rw [if_pos h1] at hev; cases hev
      · rw [if_neg h1] at hev
        by_cases h2 : 3 ≤ |(c - p) / p * 100|
        · rw [if_pos h2] at hev
          cases hev
          have hx : (c - p) / p * 100 ≠ 0 := by
            intro h0
            rw [h0, abs_zero] at h2
            exact absurd h2 (by norm_num)
          exact ⟨rfl, h2, (riseFall_iff _ hx).1, (riseFall_iff _ hx).2⟩
        · rw [if_neg h2] at hev; cases hev

theorem mem_candidateEvents {it : Item} {data : List DailyRecord}
    {ev : CandidateEvent} (h : ev ∈ candidateEvents it data) :
    ∃ prevR currR, candidatePair it prevR currR = some ev := by
  rw [candidateEvents_eq_zip] at h
  obtain ⟨pr, _, hpr⟩ := List.mem_filterMap.mp h
  exact ⟨pr.1, pr.2, hpr⟩

/-- C3: the candidate loop emits exactly one candidate per adjacent pair
whose closes are both non-null with a non-zero previous close and a
day-over-day change of magnitude at least 3 percent (inclusive threshold),
and every emitted candidate is typed `"상승"` (rise) exactly when its
`changePct` is positive and `"하락"` (fall) exactly when negative. -/
theorem claim_C3 (it : Item) (data : List DailyRecord) :
    (candidateEvents it data
        = (data.zip data.tail).filterMap fun pr => candidatePair it pr.1 pr.2)
    ∧ (∀ prevR currR : DailyRecord,
        (∃ ev, candidatePair it prevR currR = some ev) ↔
          ∃ p c, prevR.close = some p ∧ currR.close = some c ∧ p ≠ 0 ∧
            3 ≤ |(c - p) / p * 100|)
    ∧ (∀ ev ∈ candidateEvents it data,
        3 ≤ |ev.change| ∧ (ev.type = "상승" ↔ 0 < ev.change) ∧
          (ev.type = "하락" ↔ ev.change < 0)) := by
  refine ⟨candidateEvents_eq_zip it data, candidatePair_some_iff it, ?_⟩
  intro ev hev
  obtain ⟨prevR, currR, hpc⟩ := mem_candidateEvents hev
  exact (candidatePair_props hpc).2

section

attribute [local semireducible] Rat.mul Rat.add Rat.sub Rat.inv

/-- Witness for C3 at the spec-scenario series. -/
theorem claim_C3_witness :
    3 ≤ |c6ev.change| ∧ (c6ev.type = "상승" ↔ 0 < c6ev.change) ∧
      (c6ev.type = "하락" ↔ c6ev.change < 0) :=
  (claim_C3 c6item c6data).2.2 c6ev (by decide)

end

/- News-symbol gating lemmas. -/

theorem itemObj_mem_of_mem_candidateEventsAll {items : List Item}
    {raw : MonthlyData} {ev : CandidateEvent}
    (h : ev ∈ candidateEventsAll items raw) : ev.itemObj ∈ items := by
  obtain ⟨it, hit, hev⟩ := List.mem_flatMap.mp h
  obtain ⟨prevR, currR, hpc⟩ := mem_candidateEvents hev
  exact (candidatePair_props hpc).1 ▸ hit

theorem newsSymPresent_eq_isSome {it : Item} (hne : it.newsSymbol ≠ some ("")) :
    newsSymPresent it = it.newsSymbol.isSome := by
  unfold newsSymPresent
  cases hs : it.newsSymbol with
  | none => rfl
  | some s =>
    have : s ≠ "" := fun h => hne (h ▸ hs)
    simp [this]

/-- C4: over any instrument list whose configured news symbols are never the
empty string (the JS gate `if (!newsSym) continue` is a falsiness check, and
the configuration only uses `null` or a real symbol), the event output
consists exactly of the candidates whose instrument declares a news symbol:
candidates of instruments with a `null` news symbol never appear, whatever
the magnitude of the move, and every candidate of an instrument with a
configured news symbol is retained. -/
theorem claim_C4 (items : List Item) (raw : MonthlyData)
    (mbd : List (String × List String))
    (hns : ∀ it ∈ items, it.newsSymbol ≠ some ("")) (e : EventOut) :
    e ∈ buildEvents items raw mbd ↔
      ∃ ev ∈ candidateEventsAll items raw,
        ev.itemObj.newsSymbol.isSome = true ∧ e = mkEvent raw mbd ev := by
  unfold buildEvents
  rw [List.mem_filterMap]
  constructor
  · rintro ⟨ev, hmem, heq⟩
    by_cases hpres : newsSymPresent ev.itemObj
    · rw [if_pos hpres] at heq
      rw [newsSymPresent_eq_isSome (hns _ (itemObj_mem_of_mem_candidateEventsAll hmem))] at hpres
      exact ⟨ev, hmem, hpres, (Option.some_inj.mp heq).symm⟩
    · rw [if_neg hpres] at heq
      cases heq
  · rintro ⟨ev, hmem, hsome, rfl⟩
    refine ⟨ev, hmem, ?_⟩
    rw [if_pos]
    rw [newsSymPresent_eq_isSome (hns _ (itemObj_mem_of_mem_candidateEventsAll hmem))]
    exact hsome

section

attribute [local semireducible] Rat.mul Rat.add Rat.sub Rat.inv

/-- Witness for C4: the sp500 candidate (news symbol configured) is
retained. -/
theorem claim_C4_witness :
    mkEvent c4raw [] c4ev ∈ buildEvents c4items c4raw [] :=
  (claim_C4 c4items c4raw [] (by decide) (mkEvent c4raw [] c4ev)).mpr
    ⟨c4ev, by decide, by decide, rfl⟩

end

/- Headline-correlation lemmas. -/

theorem lookupDate_some_mem {m : List (String × List String)} {d : String}
    {hs : List String} (h : lookupDate m d = some hs) :
    ∃ p ∈ m, p.1 = d ∧ p.2 = hs := by
  unfold lookupDate at h
  cases hf : m.find? (fun p => p.1 == d) with
  | none => rw [hf] at h; cases h
  | some p =>
    rw [hf] at h
    refine ⟨p, List.mem_of_find?_eq_some hf, ?_, ?_⟩
    · simpa using List.find?_some hf
    · simpa using h

theorem headlineScan_invariant (e : String) :
    ∀ (l l0 : List (String × List String)) (acc : Option String × Option ℤ),
      ((acc = (none, none) ∧
          ∀ p ∈ l0, ∀ diff, absDiffDays p.1 e = some diff → p.2 = [] ∨ 14 < diff) ∨
        (∃ h diff, acc = (some h, some diff) ∧ diff ≤ 14 ∧
          (∃ p ∈ l0, p.2.head? = some h ∧ absDiffDays p.1 e = some diff) ∧
          (∀ p ∈ l0, ∀ dd, absDiffDays p.1 e = some dd → p.2 = [] ∨ diff ≤ dd))) →
      ((l.foldl (headlineScanStep e) acc = (none, none) ∧
          ∀ p ∈ l0 ++ l, ∀ diff, absDiffDays p.1 e = some diff → p.2 = [] ∨ 14 < diff) ∨
        (∃ h diff, l.foldl (headlineScanStep e) acc = (some h, some diff) ∧ diff ≤ 14 ∧
          (∃ p ∈ l0 ++ l, p.2.head? = some h ∧ absDiffDays p.1 e = some diff) ∧
          (∀ p ∈ l0 ++ l, ∀ dd, absDiffDays p.1 e = some dd → p.2 = [] ∨ diff ≤ dd)))
  | [], l0, acc, hinv => by simpa using hinv
  | q :: l, l0, acc, hinv => by
    rw [List.foldl_cons]
    have hstep :
        ((headlineScanStep e acc q = (none, none) ∧
            ∀ p ∈ l0 ++ [q], ∀ diff, absDiffDays p.1 e = some diff → p.2 = [] ∨ 14 < diff) ∨
          (∃ h diff, headlineScanStep e acc q = (some h, some diff) ∧ diff ≤ 14 ∧
            (∃ p ∈ l0 ++ [q], p.2.head? = some h ∧ absDiffDays p.1 e = some diff) ∧
            (∀ p ∈ l0 ++ [q], ∀ dd, absDiffDays p.1 e = some dd → p.2 = [] ∨ diff ≤ dd))) := by
      cases hq : q.2 with
      | nil =>
        have hstepeq : headlineScanStep e acc q = acc := by
          simp only [headlineScanStep, hq]
        rw [hstepeq]
        rcases hinv with ⟨hacc, hall⟩ | ⟨h, bd, hacc, hle, hsrc, hmin⟩
        · refine Or.inl ⟨hacc, ?_⟩
          intro p hp diff hdiff
          rcases List.mem_append.mp hp with hp | hp
          · exact hall p hp diff hdiff
          · exact Or.inl (by rw [List.mem_singleton.mp hp]; exact hq)
        · refine Or.inr ⟨h, bd, hacc, hle, ?_, ?_⟩
          · obtain ⟨p, hp, hh⟩ := hsrc
            exact ⟨p, List.mem_append.mpr (Or.inl hp), hh⟩
          · intro p hp dd hdd
            rcases List.mem_append.mp hp with hp | hp
            · exact hmin p hp dd hdd
            · exact Or.inl (by rw [List.mem_singleton.mp hp]; exact hq)
      | cons hd tl =>
        cases hdq : absDiffDays q.1 e with
        | none =>
          have hstepeq : headlineScanStep e acc q = acc := by
            simp only [headlineScanStep, hq, hdq]
          rw [hstepeq]
          rcases hinv with ⟨hacc, hall⟩ | ⟨h, bd, hacc, hle, hsrc, hmin⟩
          · refine Or.inl ⟨hacc, ?_⟩
            intro p hp diff hdiff
            rcases List.mem_append.mp hp with hp | hp
            · exact hall p hp diff hdiff
            · rw [List.mem_singleton.mp hp] at hdiff
              rw [hdq] at hdiff
              cases hdiff
          · refine Or.inr ⟨h, bd, hacc, hle, ?_, ?_⟩
            · obtain ⟨p, hp, hh⟩ := hsrc
              exact ⟨p, List.mem_append.mpr (Or.inl hp), hh⟩
            · intro p hp dd hdd
              rcases List.mem_append.mp hp with hp | hp
              · exact hmin p hp dd hdd
              · rw [List.mem_singleton.mp hp] at hdd
                rw [hdq] at hdd
                cases hdd
        | some diff =>
          have hqmem : q ∈ l0 ++ [q] :=
            List.mem_append.mpr (Or.inr (List.mem_singleton.mpr rfl))
          have hqhead : q.2.head? = some hd := by rw [hq]; rfl
          rcases hinv with ⟨hacc, hall⟩ | ⟨h, bd, hacc, hle, hsrc, hmin⟩
          · by_cases hdle : diff ≤ 14
            · have hstepeq : headlineScanStep e acc q = (some hd, some diff) := by
                simp only [headlineScanStep, hq, hdq, hacc]
                rw [if_pos hdle]
              rw [hstepeq]
              refine Or.inr ⟨hd, diff, rfl, hdle, ⟨q, hqmem, hqhead, hdq⟩, ?_⟩
              intro p hp dd hdd
              rcases List.mem_append.mp hp with hp | hp
              · rcases hall p hp dd hdd with hc | hc
                · exact Or.inl hc
                · exact Or.inr (le_of_lt (lt_of_le_of_lt hdle hc))
              · rw [List.mem_singleton.mp hp] at hdd
                rw [hdq] at hdd
                cases hdd
                exact Or.inr le_rfl
            · have hstepeq : headlineScanStep e acc q = acc := by
                simp only [headlineScanStep, hq, hdq, hacc]
                rw [if_neg hdle]
              rw [hstepeq]
              refine Or.inl ⟨hacc, ?_⟩
              intro p hp dd hdd
              rcases List.mem_append.mp hp with hp | hp
              · exact hall p hp dd hdd
              · rw [List.mem_singleton.mp hp] at hdd
                rw [hdq] at hdd
                cases hdd
                exact Or.inr (lt_of_not_le hdle)
          · by_cases hrepl : diff ≤ 14 ∧ diff < bd
            · have hstepeq : headlineScanStep e acc q = (some hd, some diff) := by
                simp only [headlineScanStep, hq, hdq, hacc]
                rw [if_pos hrepl]
              rw [hstepeq]
              refine Or.inr ⟨hd, diff, rfl, hrepl.1, ⟨q, hqmem, hqhead, hdq⟩, ?_⟩
              intro p hp dd hdd
              rcases List.mem_append.mp hp with hp | hp
              · rcases hmin p hp dd hdd with hc | hc
                · exact Or.inl hc
                · exact Or.inr (le_of_lt (lt_of_lt_of_le hrepl.2 hc))
              · rw [List.mem_singleton.mp hp] at hdd
                rw [hdq] at hdd
                cases hdd
                exact Or.inr le_rfl
            · have hstepeq : headlineScanStep e acc q = acc := by
                simp only [headlineScanStep, hq, hdq, hacc]
                rw [if_neg hrepl]
              rw [hstepeq]
              refine Or.inr ⟨h, bd, hacc, hle, ?_, ?_⟩
              · obtain ⟨p, hp, hh⟩ := hsrc
                exact ⟨p, List.mem_append.mpr (Or.inl hp), hh⟩
              · intro p hp dd hdd
                rcases List.mem_append.mp hp with hp | hp
                · exact hmin p hp dd hdd
                · rw [List.mem_singleton.mp hp] at hdd
                  rw [hdq] at hdd
                  cases hdd
                  rcases not_and_or.mp hrepl with hc | hc
                  · exact Or.inr (le_trans hle (le_of_lt (lt_of_not_le hc)))
                  · exact Or.inr (le_of_not_lt hc)
    have := headlineScan_invariant e l (l0 ++ [q]) (headlineScanStep e acc q) hstep
    rw [List.append_assoc] at this
    simpa using this

/-- C5: `getMarketHeadlineForDate` prefers the first headline of the exact
event date; any headline it returns comes from a news entry dated exactly
the event date or within 14 days of it; without an exact match the entry
chosen has the smallest absolute day difference among dated entries; and
when no entry lies within 14 days (and none matches exactly) no headline is
attached. -/
theorem claim_C5 (mbd : List (String × List String)) (eventDate : String) :
    (∀ hd tl, lookupDate mbd eventDate = some (hd :: tl) →
      getMarketHeadlineForDate mbd eventDate = some hd)
    ∧ (∀ h, getMarketHeadlineForDate mbd eventDate = some h →
        ∃ p ∈ mbd, p.2.head? = some h ∧
          (p.1 = eventDate ∨ ∃ diff, absDiffDays p.1 eventDate = some diff ∧ diff ≤ 14))
    ∧ ((∀ hd tl, lookupDate mbd eventDate ≠ some (hd :: tl)) →
        ∀ h, getMarketHeadlineForDate mbd eventDate = some h →
        ∃ p ∈ mbd, ∃ diff, p.2.head? = some h ∧
          absDiffDays p.1 eventDate = some diff ∧ diff ≤ 14 ∧
          ∀ q ∈ mbd, ∀ dq, absDiffDays q.1 eventDate = some dq → q.2 = [] ∨ diff ≤ dq)
    ∧ ((∀ hd tl, lookupDate mbd eventDate ≠ some (hd :: tl)) →
        (∀ p ∈ mbd, ∀ diff, absDiffDays p.1 eventDate = some diff →
          p.2 = [] ∨ 14 < diff) →
        getMarketHeadlineForDate mbd eventDate = none) := by
  have hbase := headlineScan_invariant eventDate mbd [] (none, none)
    (Or.inl ⟨rfl, by simp⟩)
  simp only [List.nil_append] at hbase
  refine ⟨?_, ?_, ?_, ?_⟩
  · intro hd tl hl
    unfold getMarketHeadlineForDate
    rw [hl]
  · intro h hres
    unfold getMarketHeadlineForDate at hres
    cases hl : lookupDate mbd eventDate with
    | some hs =>
      cases hs with
      | cons hd tl =>
        rw [hl] at hres
        have hh : hd = h := Option.some_inj.mp hres
        obtain ⟨p, hp, hp1, hp2⟩ := lookupDate_some_mem hl
        refine ⟨p, hp, ?_, Or.inl hp1⟩
        rw [hp2, hh]
        rfl
      | nil =>
        rw [hl] at hres
        rcases hbase with ⟨hfold, _⟩ | ⟨h2, diff, hfold, hle, ⟨p, hp, hph, hpd⟩, _⟩
        · rw [hfold] at hres
          simp at hres
        · rw [hfold] at hres
          have hh : h2 = h := by simpa using hres
          exact ⟨p, hp, hh ▸ hph, Or.inr ⟨diff, hpd, hle⟩⟩
    | none =>
      rw [hl] at hres
      rcases hbase with ⟨hfold, _⟩ | ⟨h2, diff, hfold, hle, ⟨p, hp, hph, hpd⟩, _⟩
      · rw [hfold] at hres
        simp at hres
      · rw [hfold] at hres
        have hh : h2 = h := by simpa using hres
        exact ⟨p, hp, hh ▸ hph, Or.inr ⟨diff, hpd, hle⟩⟩
  · intro hex h hres
    unfold getMarketHeadlineForDate at hres
    cases hl : lookupDate mbd eventDate with
    | some hs =>
      cases hs with
      | cons hd tl => exact absurd hl (hex hd tl)
      | nil =>
        rw [hl] at hres
        rcases hbase with ⟨hfold, _⟩ | ⟨h2, diff, hfold, hle, ⟨p, hp, hph, hpd⟩, hmin⟩
        · rw [hfold] at hres
          simp at hres
        · rw [hfold] at hres
          have hh : h2 = h := by simpa using hres
          exact ⟨p, hp, diff, hh ▸ hph, hpd, hle, hmin⟩
    | none =>
      rw [hl] at hres
      rcases hbase with ⟨hfold, _⟩ | ⟨h2, diff, hfold, hle, ⟨p, hp, hph, hpd⟩, hmin⟩
      · rw [hfold] at hres
        simp at hres
      · rw [hfold] at hres
        have hh : h2 = h := by simpa using hres
        exact ⟨p, hp, diff, hh ▸ hph, hpd, hle, hmin⟩
  · intro hex hwin
    unfold getMarketHeadlineForDate
    cases hl : lookupDate mbd eventDate with
    | some hs =>
      cases hs with
      | cons hd tl => exact absurd hl (hex hd tl)
      | nil =>
        rcases hbase with ⟨hfold, _⟩ | ⟨h2, diff, hfold, hle, ⟨p, hp, hph, hpd⟩, _⟩
        · show (mbd.foldl (headlineScanStep eventDate) (none, none)).1 = none
          rw [hfold]
        · rcases hwin p hp diff hpd with hc | hc
          · rw [hc] at hph
            cases hph
          · exact absurd hle (not_le.mpr hc)
    | none =>
      rcases hbase with ⟨hfold, _⟩ | ⟨h2, diff, hfold, hle, ⟨p, hp, hph, hpd⟩, _⟩
      · show (mbd.foldl (headlineScanStep eventDate) (none, none)).1 = none
        rw [hfold]
      · rcases hwin p hp diff hpd with hc | hc
        · rw [hc] at hph
          cases hph
        · exact absurd hle (not_le.mpr hc)

/-- Witness for C5: an exact-date headline is preferred, and a headline 26
days away is not attached. -/
theorem claim_C5_witness :
    getMarketHeadlineForDate
        [("2025-01-04", ["exact"]), ("2025-01-06", ["near"])] ("2025-01-04")
      = some ("exact")
    ∧ getMarketHeadlineForDate [("2025-01-30", ["far"])] ("2025-01-04") = none := by
  constructor
  · exact (claim_C5 _ _).1 ("exact") [] (by decide)
  · refine (claim_C5 _ _).2.2.2 ?_ ?_
    · intro hd tl h
      rw [show lookupDate [("2025-01-30", ["far"])] ("2025-01-04") = none from by decide] at h
      cases h
    · intro p hp diff hdiff
      rw [List.mem_singleton] at hp
      subst hp
      have hdiff2 : absDiffDays ("2025-01-30") ("2025-01-04") = some diff := hdiff
      rw [show absDiffDays ("2025-01-30") ("2025-01-04") = some 26 from by decide] at hdiff2
      cases hdiff2
      exact Or.inr (by decide)

/- Cache state-machine lemmas. -/

theorem find?_map_update :
    ∀ (st : CacheState) (k : String) (e : CacheEntry),
      st.any (fun p => p.1 == k) = true →
      (st.map fun p => if p.1 = k then (k, e) else p).find? (fun p => p.1 == k)
        = some (k, e)
  | [], _, _, h => by cases h
  | p :: t, k, e, h => by
    by_cases hp : p.1 = k
    · rw [List.map_cons, if_pos hp, List.find?_cons_of_pos _ (by simp)]
    · rw [List.map_cons, if_neg hp, List.find?_cons_of_neg _ (by simpa using hp)]
      apply find?_map_update t k e
      simp only [List.any_cons, Bool.or_eq_true] at h
      rcases h with h | h
      · exact absurd (by simpa using h) hp
      · exact h

theorem find?_append_singleton :
    ∀ (st : CacheState) (k : String) (e : CacheEntry),
      st.any (fun p => p.1 == k) = false →
      (st ++ [(k, e)]).find? (fun p => p.1 == k) = some (k, e)
  | [], k, e, _ => by
    rw [List.nil_append, List.find?_cons_of_pos _ (by simp)]
  | p :: t, k, e, h => by
    rw [List.any_cons] at h
    have h1 : (p.1 == k) = false := by
      cases hc : (p.1 == k)
      · rfl
      · rw [hc] at h; simp at h
    rw [List.cons_append, List.find?_cons_of_neg _ (by simp [h1])]
    apply find?_append_singleton t k e
    cases hc : t.any (fun p => p.1 == k)
    · rfl
    · rw [hc] at h; simp at h

theorem lookupKey_setKey_self (st : CacheState) (k : String) (e : CacheEntry) :
    lookupKey (setKey st k e) k = some e := by
  unfold setKey lookupKey
  split
  · next hany => rw [find?_map_update st k e hany]; rfl
  · next hany =>
    have hf : st.any (fun p => p.1 == k) = false := by
      cases hb : st.any (fun p => p.1 == k)
      · rfl
      · exact absurd hb hany
    rw [find?_append_singleton st k e hf]
    rfl

theorem getCachedMonthly_setKey (st : CacheState) (year month : ℤ)
    (data : MonthlyData) :
    getCachedMonthly
        (setKey st (getPeriodKey year month) ⟨year, month, some data⟩) year month
      = some ⟨year, month, data⟩ := by
  unfold getCachedMonthly
  rw [lookupKey_setKey_self]

theorem getMonthlyData_cache_hit {st : CacheState} {year month : ℤ}
    {c : CachedMonthly} (today : Date3) (items : List Item)
    (oracle : Item → Except String (List DailyRecord))
    (hc : getCachedMonthly st year month = some c) :
    getMonthlyData st today year month false items oracle = ⟨c.data, [], st, 0⟩ := by
  simp only [getMonthlyData, hc]

theorem getMonthlyData_miss (st : CacheState) (today : Date3) (year month : ℤ)
    (items : List Item) (oracle : Item → Except String (List DailyRecord))
    (hc : getCachedMonthly st year month = none) :
    ∃ results : MonthlyData,
      getMonthlyData st today year month false items oracle
        = ⟨results, (fetchAllHistorical items oracle).2,
            setKey st (getPeriodKey year month) ⟨year, month, some results⟩, 1⟩
      ∧ results = (fetchAllHistorical items oracle).1.map
          (fun p => (p.1, filterToWindow (formatYMD ⟨year, month, 1⟩)
            (if year = today.year ∧ month = today.month then formatYMD today
             else formatYMD ⟨year, month, daysInMonth year month⟩) p.2)) := by
  refine ⟨_, ?_, rfl⟩
  simp only [getMonthlyData, hc]
  rfl

/-- C7: when a snapshot is cached for the period and no refresh is
requested, `getMonthlyData` returns the snapshot data with an empty failure
list, leaves the cache untouched and performs zero upstream batch calls;
consequently a second non-refresh call after any first non-refresh call
returns the first call's data with no failures, no state change and zero
upstream calls. -/
theorem claim_C7 (st : CacheState) (today : Date3) (year month : ℤ)
    (items : List Item) (oracle : Item → Except String (List DailyRecord)) :
    (∀ c, getCachedMonthly st year month = some c →
      getMonthlyData st today year month false items oracle = ⟨c.data, [], st, 0⟩)
    ∧ (∀ (today2 : Date3) (items2 : List Item)
        (oracle2 : Item → Except String (List DailyRecord)),
        getMonthlyData (getMonthlyData st today year month false items oracle).state
            today2 year month false items2 oracle2
          = ⟨(getMonthlyData st today year month false items oracle).data, [],
             (getMonthlyData st today year month false items oracle).state, 0⟩) := by
  constructor
  · intro c hc
    exact getMonthlyData_cache_hit today items oracle hc
  · intro today2 items2 oracle2
    cases hcache : getCachedMonthly st year month with
    | some c =>
      rw [getMonthlyData_cache_hit today items oracle hcache]
      exact getMonthlyData_cache_hit today2 items2 oracle2 hcache
    | none =>
      obtain ⟨results, heq, _⟩ :=
        getMonthlyData_miss st today year month items oracle hcache
      rw [heq]
      exact getMonthlyData_cache_hit today2 items2 oracle2
        (getCachedMonthly_setKey st year month results)

/-- Witness for C7 at a concrete cached state. -/
theorem claim_C7_witness :
    getMonthlyData stCached ⟨2025, 6, 15⟩ 2025 1 false [] allFailOracle
      = ⟨[("gold", [{ date := "2025-01-03", close := some 10 }])], [], stCached, 0⟩ :=
  (claim_C7 stCached ⟨2025, 6, 15⟩ 2025 1 [] allFailOracle).1
    ⟨2025, 1, [("gold", [{ date := "2025-01-03", close := some 10 }])]⟩ (by decide)

section

attribute [local semireducible] Rat.mul Rat.add Rat.sub Rat.inv

/-- C6: on the three-day series with closes 100, 95, 88, the day-3 candidate
carries `changePct = (88 - 95) / 95 * 100` (about -7.37) and type `"하락"`;
that change is at most -7, the consecutive-decline streak ending at index 2
is 2, the cumulative change is -12 percent, and `getSellTimingWarning`
returns the strongest sell advisory (the `changePct ≤ -7 ∧ streak ≥ 2`
branch of the fall table). -/
theorem claim_C6 :
    (∃ ev ∈ candidateEvents c6item c6data,
      ev.date = "2025-01-04" ∧ ev.change = ((88 : ℚ) - 95) / 95 * 100 ∧
        ev.type = "하락")
    ∧ ((88 : ℚ) - 95) / 95 * 100 ≤ -7
    ∧ consecDownFrom [100, 95, 88] 2 = 2
    ∧ ((88 : ℚ) - 100) / 100 * 100 = -12
    ∧ getSellTimingWarning c6data ("2025-01-04") (((88 : ℚ) - 95) / 95 * 100)
        ("하락") = "⚠ 급락 구간 - 즉시 매도 검토 권고" := by
  decide

end

/- Batch-collector lemmas. -/

theorem fetchAll_results (oracle : Item → Except String (List DailyRecord)) :
    ∀ items : List Item,
      (fetchAllHistorical items oracle).1 = items.map (fun it => (it.id,
        match oracle it with
        | Except.ok s => s
        | Except.error _ => []))
  | [] => rfl
  | it :: rest => by
    simp only [fetchAllHistorical, List.map_cons]
    cases ho : oracle it <;>
      simp [ho, fetchAll_results oracle rest]

theorem fetchAll_failed (oracle : Item → Except String (List DailyRecord)) :
    ∀ items : List Item,
      (fetchAllHistorical items oracle).2 = items.filterMap (fun it =>
        match oracle it with
        | Except.ok _ => none
        | Except.error msg => some ⟨it.name, msg⟩)
  | [] => rfl
  | it :: rest => by
    simp only [fetchAllHistorical, List.filterMap_cons]
    cases ho : oracle it <;>
      simp [ho, fetchAll_failed oracle rest]

theorem find?_map_item_first :
    ∀ (l1 : List Item) (bad : Item) (l2 : List Item)
      (g : Item → List DailyRecord),
      (∀ it ∈ l1, it.id ≠ bad.id) →
      ((l1 ++ bad :: l2).map (fun it => (it.id, g it))).find?
          (fun p => p.1 == bad.id)
        = some (bad.id, g bad)
  | [], bad, l2, g, _ => by
    rw [List.nil_append, List.map_cons, List.find?_cons_of_pos _ (by simp)]
  | it :: t, bad, l2, g, h => by
    rw [List.cons_append, List.map_cons,
      List.find?_cons_of_neg _ (by simpa using h it (List.mem_cons_self it t))]
    exact find?_map_item_first t bad l2 g fun x hx => h x (List.mem_cons_of_mem it hx)

/-- C9: in a batch where exactly one instrument's fetch fails (after the
adapter's retries) and every other instrument succeeds, the failure list
holds exactly one entry naming that instrument with the thrown reason, the
failing instrument's result is the empty series, every instrument still
receives a result (the batch is not aborted), and the daily route on an
empty cache still answers with a success envelope carrying that single
failure. -/
theorem claim_C9 (items : List Item)
    (oracle : Item → Except String (List DailyRecord)) (bad : Item)
    (reason : String)
    (hids : (items.map (fun it => it.id)).Nodup)
    (hmem : bad ∈ items)
    (hbad : oracle bad = Except.error reason)
    (hok : ∀ it ∈ items, it ≠ bad → ∃ s, oracle it = Except.ok s) :
    (fetchAllHistorical items oracle).2 = [⟨bad.name, reason⟩]
    ∧ lookupId (fetchAllHistorical items oracle).1 bad.id = some []
    ∧ (fetchAllHistorical items oracle).1.map Prod.fst
        = items.map (fun it => it.id)
    ∧ ∀ today : Date3,
        (apiDaily [] today items oracle 2025 1).1.success = true
        ∧ (apiDaily [] today items oracle 2025 1).1.failed = [⟨bad.name, reason⟩] := by
  obtain ⟨l1, l2, heq⟩ := List.append_of_mem hmem
  have hnd : (l1 ++ bad :: l2).Nodup := by
    rw [← heq]
    exact List.Nodup.of_map _ hids
  have hne1 : ∀ it ∈ l1, it ≠ bad := by
    intro it hit hc
    subst hc
    exact (List.disjoint_of_nodup_append hnd) hit (List.mem_cons_self it l2)
  have hne2 : ∀ it ∈ l2, it ≠ bad := by
    intro it hit hc
    subst hc
    exact (List.nodup_cons.mp (List.nodup_append.mp hnd).2.1).1 hit
  have hfail : (fetchAllHistorical items oracle).2 = [⟨bad.name, reason⟩] := by
    rw [fetchAll_failed oracle items, heq, List.filterMap_append,
      List.filterMap_cons, hbad]
    have h1 : l1.filterMap (fun it =>
        match oracle it with
        | Except.ok _ => none
        | Except.error msg => some (⟨it.name, msg⟩ : Failure)) = [] := by
      rw [List.filterMap_eq_nil_iff]
      intro it hit
      obtain ⟨s, hs⟩ := hok it (heq ▸ List.mem_append_left _ hit) (hne1 it hit)
      rw [hs]
    have h2 : l2.filterMap (fun it =>
        match oracle it with
        | Except.ok _ => none
        | Except.error msg => some (⟨it.name, msg⟩ : Failure)) = [] := by
      rw [List.filterMap_eq_nil_iff]
      intro it hit
      obtain ⟨s, hs⟩ := hok it
        (heq ▸ List.mem_append_right _ (List.mem_cons_of_mem bad hit)) (hne2 it hit)
      rw [hs]
    rw [h1, h2]
    rfl
  have hids2 : ∀ it ∈ l1, it.id ≠ bad.id := by
    intro it hit hc
    have : (l1.map (fun it => it.id) ++
        (bad :: l2).map (fun it => it.id)).Nodup := by
      rw [← List.map_append, ← heq]
      exact hids
    exact (List.disjoint_of_nodup_append this)
      (List.mem_map_of_mem _ hit) (hc ▸ List.mem_map_of_mem _ (List.mem_cons_self bad l2))
  refine ⟨hfail, ?_, ?_, ?_⟩
  · rw [fetchAll_results oracle items, heq]
    unfold lookupId
    rw [find?_map_item_first l1 bad l2 _ hids2]
    simp [hbad]
  · rw [fetchAll_results oracle items, List.map_map]
    rfl
  · intro today
    have hv : validateYearMonth 2025 1 = some (2025, 1) := rfl
    have hmiss0 : getCachedMonthly ([] : CacheState) 2025 1 = none := rfl
    obtain ⟨results, hout, _⟩ :=
      getMonthlyData_miss [] today 2025 1 items oracle hmiss0
    constructor
    · simp only [apiDaily, hv]
    · simp only [apiDaily, hv, hout]
      exact hfail

section

attribute [local semireducible] Rat.mul Rat.add Rat.sub Rat.inv

/-- Witness for C9 at the two-instrument batch with brent failing. -/
theorem claim_C9_witness :
    (fetchAllHistorical c9items c9oracle).2 = [⟨c9bad.name, fetchExhaustedMsg⟩]
    ∧ lookupId (fetchAllHistorical c9items c9oracle).1 c9bad.id = some []
    ∧ (apiDaily [] ⟨2025, 6, 15⟩ c9items c9oracle 2025 1).1.success = true := by
  have h := claim_C9 c9items c9oracle c9bad fetchExhaustedMsg (by decide) (by decide)
    rfl ?_
  · exact ⟨h.1, h.2.1, (h.2.2.2 ⟨2025, 6, 15⟩).1⟩
  · intro it hit hne
    rcases List.mem_cons.mp hit with rfl | hit2
    · exact ⟨[{ date := "2025-01-03", close := some 10 }], rfl⟩
    · rcases List.mem_singleton.mp hit2 with rfl
      exact absurd rfl hne

end

/-- C10: on a cache miss with `forceRefresh = false`, `getMonthlyData`
always stores a snapshot for the period before returning: afterwards the
cache holds exactly the returned data under the period key, one upstream
batch ran, every configured instrument has an entry, and if every
instrument's fetch failed each stored series is empty; every subsequent
non-refresh call then returns that (possibly all-empty) data with an empty
failure list, unchanged state and zero upstream calls. -/
theorem claim_C10 (st : CacheState) (today : Date3) (year month : ℤ)
    (items : List Item) (oracle : Item → Except String (List DailyRecord))
    (out : MonthlyOut)
    (hmiss : getCachedMonthly st year month = none)
    (hout : out = getMonthlyData st today year month false items oracle) :
    getCachedMonthly out.state year month = some ⟨year, month, out.data⟩
    ∧ out.upstreamBatches = 1
    ∧ out.data.map Prod.fst = items.map (fun it => it.id)
    ∧ ((∀ it ∈ items, ∃ msg, oracle it = Except.error msg) →
        ∀ p ∈ out.data, p.2 = [])
    ∧ (∀ (today2 : Date3) (items2 : List Item)
        (oracle2 : Item → Except String (List DailyRecord)),
        getMonthlyData out.state today2 year month false items2 oracle2
          = ⟨out.data, [], out.state, 0⟩) := by
  obtain ⟨results, heq, hres⟩ :=
    getMonthlyData_miss st today year month items oracle hmiss
  subst hout
  rw [heq]
  refine ⟨getCachedMonthly_setKey st year month results, rfl, ?_, ?_, ?_⟩
  · show results.map Prod.fst = _
    rw [hres, fetchAll_results oracle items, List.map_map, List.map_map]
    rfl
  · intro hfail p hp
    have hp2 : p ∈ results := hp
    rw [hres, fetchAll_results oracle items, List.map_map] at hp2
    obtain ⟨it, hit, hpit⟩ := List.mem_map.mp hp2
    obtain ⟨msg, hmsg⟩ := hfail it hit
    show p.2 = []
    rw [← hpit]
    show filterToWindow _ _ (match oracle it with
      | Except.ok s => s
      | Except.error _ => []) = []
    rw [hmsg]
    rfl
  · intro today2 items2 oracle2
    exact getMonthlyData_cache_hit today2 items2 oracle2
      (getCachedMonthly_setKey st year month results)

/-- Witness for C10: empty cache, all fetches failing. -/
theorem claim_C10_witness :
    getCachedMonthly
        (getMonthlyData [] ⟨2025, 6, 15⟩ 2025 1 false c9items allFailOracle).state
        2025 1
      = some ⟨2025, 1,
          (getMonthlyData [] ⟨2025, 6, 15⟩ 2025 1 false c9items allFailOracle).data⟩
    ∧ ∀ p ∈ (getMonthlyData [] ⟨2025, 6, 15⟩ 2025 1 false c9items allFailOracle).data,
        p.2 = [] := by
  have h := claim_C10 [] ⟨2025, 6, 15⟩ 2025 1 c9items allFailOracle _ (by decide) rfl
  exact ⟨h.1, h.2.2.2.1 fun it _ => ⟨fetchExhaustedMsg, rfl⟩⟩

section

attribute [local semireducible] Rat.mul Rat.add Rat.sub Rat.inv

/-- C8, evaluated on the code: without an API key both news fetchers return
the empty list before any network access, and the events route answers
`success: true` with no error — but the event set is NOT empty when the
cached month contains a qualifying move of an instrument with a configured
news symbol: the -10 percent sp500 fall of `c8state` is returned as an
event with no headline attached.  This contradicts the repository's own
documentation (the README states no events are shown without an API key;
the architecture document and the comments above `fetchNewsForSymbol` and
the events route state that only events with correlated news are included),
which the claim follows. -/
theorem claim_C8_code_eval :
    (∀ up, fetchMarketNews none none up = [])
    ∧ (∀ up, fetchNewsForSymbol none none up = [])
    ∧ (apiEvents c8state ⟨2025, 6, 15⟩ [c6item] allFailOracle none none []
        2025 1 false).1.success = true
    ∧ (apiEvents c8state ⟨2025, 6, 15⟩ [c6item] allFailOracle none none []
        2025 1 false).1.errorMsg = none
    ∧ (apiEvents c8state ⟨2025, 6, 15⟩ [c6item] allFailOracle none none []
        2025 1 false).1.events
      = [("2025-01-03",
          [{ date := "2025-01-03", item := "S&P500지수",
             change := ((90 : ℚ) - 100) / 100 * 100, type := "하락",
             newsHeadline := none,
             sellWarning := "⚠ 월간 손실 확대 - 손절 포인트 검토" }])]
    ∧ (apiEvents c8state ⟨2025, 6, 15⟩ [c6item] allFailOracle none none []
        2025 1 false).1.events ≠ [] := by
  refine ⟨fun up => rfl, fun up => rfl, ?_, ?_, ?_, ?_⟩ <;> decide

end
